import Mathlib

/-!
Verification development for the SCC configuration updater
(`update_SCCconfiguration_v0.7.0_LB_2025-06-25.py`).

The script reconciles an authoritative calibration document (tables extracted
from a PDF) with an existing sectioned configuration file.  We embed the
script's pure core shallowly:

* Python `None` / pandas `NaN` cell values are `Option String` (`Cell`);
* Python dicts are association lists with in-place overwrite (`dictInsert`),
  preserving first-insertion key order exactly as CPython dicts do;
* pandas `DataFrame` rows built from `dict(zip(columns, cells))` are
  association lists; rows read back by `pd.read_csv` in the cleanup pass are
  positional cell lists over a column-name list;
* fallible operations (`list.index`, string-to-number parses, the cleanup
  pass's guarded body) return `Option`/`Except`.

Strings handled character-wise (the CSV splitting of the cleanup pass) are
modelled as `List Char` so that splitting/joining round trips are provable by
structural induction.
-/

namespace SCC

/-- A pandas/Python cell value: `none` models Python `None` / pandas `NaN`,
`some s` a present string value. -/
abbrev Cell := Option String

/-! ## Python dict model (association lists, insertion order, overwrite) -/

/-- `d[k] = v` on a Python dict: overwrite the value in place when the key is
present (keeping its original position), else append the new pair. -/
def dictInsert {κ α : Type} [DecidableEq κ] (k : κ) (v : α) :
    List (κ × α) → List (κ × α)
  | [] => [(k, v)]
  | (k', v') :: rest =>
    if k' = k then (k, v) :: rest else (k', v') :: dictInsert k v rest

/-- Python `d[k]` / `k in d` support: first binding of `k`. -/
def dlookup {κ α : Type} [DecidableEq κ] (k : κ) : List (κ × α) → Option α
  | [] => none
  | (k', v) :: rest => if k' = k then some v else dlookup k rest

/-- Python `d.get(k, dflt)`: the stored value when the key is present (even a
stored `None`), the default only when the key is absent. -/
def dictGetD {κ α : Type} [DecidableEq κ] (d : List (κ × α)) (k : κ) (dflt : α) : α :=
  (dlookup k d).getD dflt

/-- Python `d1.update(d2)`: insert every pair of `d2`, in order, into `d1`. -/
def pyUpdate {κ α : Type} [DecidableEq κ] (d1 d2 : List (κ × α)) : List (κ × α) :=
  d2.foldl (fun acc p => dictInsert p.1 p.2 acc) d1

/-- Python `set.add`: membership is all that is observed. -/
def pySetAdd {α : Type} [DecidableEq α] (v : α) (s : List α) : List α :=
  if v ∈ s then s else s ++ [v]

/-! ## Python numeric string parsing -/

/-- Digit run of a Python numeric literal: digits with single underscores
strictly between digits, accumulating the base-10 value (`acc` carries the
digits already read). -/
def pyDigitsAux : Nat → List Char → Option Nat
  | acc, [] => some acc
  | acc, c :: rest =>
    if c.isDigit then pyDigitsAux (10 * acc + (c.toNat - 48)) rest
    else if c = '_' then
      match rest with
      | [] => none
      | d :: rest' =>
        if d.isDigit then pyDigitsAux (10 * acc + (d.toNat - 48)) rest' else none
    else none

/-- Value of a nonempty digit run (Python `int`/`float` digit grammar);
`none` when the characters are not a valid digit run. -/
def pyDigitsVal : List Char → Option Nat
  | [] => none
  | c :: rest => if c.isDigit then pyDigitsAux (c.toNat - 48) rest else none

/-- Count of actual digit characters in a list. -/
def digitCount (l : List Char) : Nat := (l.filter Char.isDigit).length

/-- Python `str.strip()` on a character list. -/
def pyStripL (l : List Char) : List Char :=
  ((l.dropWhile Char.isWhitespace).reverse.dropWhile Char.isWhitespace).reverse

/-- Python `str.strip()` on a string. -/
def pyStrip (s : String) : String := (pyStripL s.toList).asString

/-- Python `int(s)` in base 10: optional surrounding whitespace, optional
sign, then a digit run. `none` models the raised `ValueError`. -/
def parsePyInt (s : String) : Option Int :=
  match pyStripL s.toList with
  | '+' :: rest => (pyDigitsVal rest).map (fun n => (n : Int))
  | '-' :: rest => (pyDigitsVal rest).map (fun n => -(n : Int))
  | cs => (pyDigitsVal cs).map (fun n => (n : Int))

/-- Split a float literal's character list at the first `e`/`E`. -/
def splitAtExp : List Char → List Char × Option (List Char)
  | [] => ([], none)
  | c :: rest =>
    if c = 'e' ∨ c = 'E' then ([], some rest)
    else
      let (m, e) := splitAtExp rest
      (c :: m, e)

/-- Split a mantissa's character list at the first `.`. -/
def splitAtDot : List Char → List Char × Option (List Char)
  | [] => ([], none)
  | c :: rest =>
    if c = '.' then ([], some rest)
    else
      let (i, f) := splitAtDot rest
      (c :: i, f)

/-- Unsigned mantissa as an exact rational `num / 10^fracDigits`:
`digits [. digits]` with at least one digit overall, `.` allowed on either
side but not both empty.  Returns `(num, fracDigits)`. -/
def parseMantissa (cs : List Char) : Option (Nat × Nat) :=
  match splitAtDot cs with
  | (ip, none) => (pyDigitsVal ip).map (fun v => (v, 0))
  | ([], some fp) => (pyDigitsVal fp).map (fun v => (v, digitCount fp))
  | (ip, some []) => (pyDigitsVal ip).map (fun v => (v, 0))
  | (ip, some fp) =>
    match pyDigitsVal ip, pyDigitsVal fp with
    | some iv, some fv => some (iv * 10 ^ digitCount fp + fv, digitCount fp)
    | _, _ => none

/-- Optional sign before a digit run (for exponents). -/
def parseSignedDigits : List Char → Option Int
  | '+' :: rest => (pyDigitsVal rest).map (fun n => (n : Int))
  | '-' :: rest => (pyDigitsVal rest).map (fun n => -(n : Int))
  | cs => (pyDigitsVal cs).map (fun n => (n : Int))

/-- Python `float(s)` as an exact rational `(num, den)` with `den = 10^k`:
optional surrounding whitespace, optional sign, mantissa, optional exponent.
`none` models an unparsable string (raised `ValueError`); the special values
`inf`/`nan` are also `none` here since `round()` raises on them, which the
caller's bare `except` turns into the same result. -/
def parsePyFloat (s : String) : Option (Int × Nat) :=
  let cs := pyStripL s.toList
  let (signNeg, cs) :=
    match cs with
    | '+' :: rest => (false, rest)
    | '-' :: rest => (true, rest)
    | _ => (false, cs)
  let (mant, expPart) := splitAtExp cs
  match parseMantissa mant with
  | none => none
  | some (mv, fd) =>
    let num : Int := if signNeg then -(mv : Int) else (mv : Int)
    match expPart with
    | none => some (num, 10 ^ fd)
    | some ecs =>
      match parseSignedDigits ecs with
      | none => none
      | some e =>
        if 0 ≤ e then some (num * 10 ^ e.toNat, 10 ^ fd)
        else some (num, 10 ^ fd * 10 ^ (-e).toNat)

/-- Python `round(x)` on an exact rational `num / den` (`den > 0`): round half
to even (banker's rounding), as CPython does for floats. -/
def roundHalfEven (num : Int) (den : Nat) : Int :=
  let d : Int := (den : Int)
  let q := Int.fdiv num d
  let r := num - q * d
  if 2 * r < d then q
  else if d < 2 * r then q + 1
  else if q % 2 = 0 then q else q + 1

/-- `normalize_wavelength(w)`: `int(round(float(w)))`, `None` on any failure
(the function's bare `except`). -/
def normalize_wavelength (w : String) : Option Int :=
  (parsePyFloat w).map (fun p => roundHalfEven p.1 p.2)

/-! ## `parse_atlas_id` -/

/-- The five positional fields of an ATLAS identifier. -/
structure AtlasParts where
  wavelength : String
  range : String
  scattering : String
  mode : String
  suffix : String
deriving DecidableEq, Repr, Inhabited

/-- `parse_atlas_id(atlas_id)`: purely positional slicing.  Python indexes
`atlas_id[4]`, `[5]`, `[6]` unconditionally, so any string of length less
than 7 raises `IndexError`; we model that error path as `none`.  Position 7
is guarded in the source (`if len(atlas_id) > 7 else ""`). -/
def parse_atlas_id (atlas_id : String) : Option AtlasParts :=
  let cs := atlas_id.toList
  if 7 ≤ cs.length then
    some
      { wavelength := (cs.take 4).asString
        range := (cs.getD 4 ' ').toString
        scattering := (cs.getD 5 ' ').toString
        mode := (cs.getD 6 ' ').toString
        suffix := if 7 < cs.length then (cs.getD 7 ' ').toString else "" }
  else none

/-! ## Authoritative record building (PDF tables)

`channel_df` rows carry the twelve positionally renamed channel-table columns,
`background_df` rows the seven background-table columns.  Each extracted cell
may be `None`, hence `Cell`.  `row.to_dict()` yields a dict whose keys are the
column names in order. -/

/-- One data row of the channel table (`all_tables[3]`), columns renamed. -/
structure PdfChanRow where
  atlasId : Cell
  sccId : Cell
  minHeight : Cell
  maxHeight : Cell
  deadTime : Cell
  firstSignalRangebin : Cell
  triggerDelay : Cell
  emissionWavelength : Cell
  ifCenter : Cell
  ifFwhm : Cell
  gRatio : Cell
  hRatio : Cell
deriving DecidableEq, Repr

/-- One data row of the background table (`all_tables[4]`), columns renamed. -/
structure PdfBgRow where
  atlasId : Cell
  sccId : Cell
  bgLowBin : Cell
  bgHighBin : Cell
  bgMode : Cell
  bgLow : Cell
  bgHigh : Cell
deriving DecidableEq, Repr

/-- An authoritative record: the Python dict `row.to_dict()` (later possibly
`update`d with a background row). -/
abbrev AuthDict := List (String × Cell)

/-- `row.to_dict()` of a channel-table row: keys in column order. -/
def chanToDict (r : PdfChanRow) : AuthDict :=
  [("ATLAS ID", r.atlasId), ("SCC ID", r.sccId),
   ("Minimum channel height", r.minHeight), ("Maximum channel height", r.maxHeight),
   ("Dead time", r.deadTime), ("First signal rangebin", r.firstSignalRangebin),
   ("Trigger delay", r.triggerDelay), ("Emission Wavelength", r.emissionWavelength),
   ("Interference filter center", r.ifCenter), ("Interference filter FWHM", r.ifFwhm),
   ("G", r.gRatio), ("H", r.hRatio)]

/-- `row.to_dict()` of a background-table row. -/
def bgToDict (r : PdfBgRow) : AuthDict :=
  [("ATLAS ID", r.atlasId), ("SCC ID", r.sccId),
   ("Background Low Bin", r.bgLowBin), ("Background High Bin", r.bgHighBin),
   ("Background Mode", r.bgMode), ("Background Low", r.bgLow),
   ("Background High", r.bgHigh)]

/-- First phase of `channel_data` (source lines 79-83): for each channel-table
row whose `ATLAS ID` is non-null and, as a stripped string, differs from the
header token `"ATLAS ID"`, store `channel_data[aid] = row.to_dict()`; a later
row with the same identifier overwrites the earlier one's record. -/
def buildChannelPhase (rows : List PdfChanRow) : List (String × AuthDict) :=
  rows.foldl
    (fun m r =>
      match r.atlasId with
      | some a => if pyStrip a ≠ "ATLAS ID" then dictInsert a (chanToDict r) m else m
      | none => m)
    []

/-- Second phase of `channel_data` (source lines 84-87): for each
background-table row, `channel_data[aid].update(row.to_dict())` only when the
identifier already exists in the map; background-only identifiers are
dropped. -/
def applyBackground (m : List (String × AuthDict)) (rows : List PdfBgRow) :
    List (String × AuthDict) :=
  rows.foldl
    (fun m r =>
      match r.atlasId with
      | some a =>
        match dlookup a m with
        | some d => dictInsert a (pyUpdate d (bgToDict r)) m
        | none => m
      | none => m)
    m

/-- The full `channel_data` map: channel phase, then background merge. -/
def buildChannelData (chanRows : List PdfChanRow) (bgRows : List PdfBgRow) :
    List (String × AuthDict) :=
  applyBackground (buildChannelPhase chanRows) bgRows

/-! ## Existing configuration rows and the matching engine

`original_hoi_df` rows come from `dict(zip(hoi_columns, cells))`: association
lists keyed by column name.  Missing columns of a row read as `NaN` in the
DataFrame (`none` here). -/

/-- An existing configuration row (one `HoiChannels` data line). -/
abbrev Row := List (String × Cell)

/-- DataFrame cell access `row[c]`: `NaN` (`none`) when the row has no
binding for the column. -/
def rowField (r : Row) (c : String) : Cell :=
  (dlookup c r).getD none

/-- `row.get(c, dflt)` on the row dict. -/
def rowGetD (r : Row) (c : String) (dflt : Cell) : Cell :=
  (dlookup c r).getD dflt

/-- `normalize_wavelength` lifted to a cell: a `NaN` cell never parses
(`round(float(nan))` raises, caught to `None`). -/
def normalizeCell (c : Cell) : Option Int :=
  c.bind normalize_wavelength

/-- The candidate predicate of the matching loop (source lines 125-129): same
detection mode, `normalize_wavelength(if_center)` equal to the identifier's
integer wavelength, and `id` not yet consumed.  `used` holds raw `id` cells,
as the Python set does. -/
def isCandidate (used : List Cell) (matchMode : String) (matchWl : Int) (r : Row) : Bool :=
  rowField r "_detection_mode_id_id" == some matchMode &&
    normalizeCell (rowField r "if_center") == some matchWl &&
    !(used.contains (rowField r "id"))

/-- Python `str(cell)` as used in f-string interpolation of a row id. -/
def pyStr (c : Cell) : String :=
  match c with
  | some s => s
  | none => "nan"

/-- The state threaded through the matching loop. -/
structure MatchState where
  atlasToCsvId : List (String × Cell)
  usedCsvIds : List Cell
  logLines : List String
  matchedData : List (Cell × AuthDict)
deriving DecidableEq, Repr

/-- The empty initial matching state (source lines 111-115). -/
def initMatchState : MatchState :=
  { atlasToCsvId := [], usedCsvIds := [], logLines := [], matchedData := [] }

/-- Log line for a skipped identifier. -/
def skippedMsg (aid : String) : String :=
  "Skipped invalid ATLAS ID (bad wavelength): " ++ aid

/-- Log line for a successful match. -/
def matchedMsg (aid : String) (csvId : Cell) : String :=
  "Matched automatically: " ++ aid ++ " → CSV ID: " ++ pyStr csvId

/-- Log line for an unmatched identifier. -/
def notMatchedMsg (aid : String) : String :=
  "Not matched: " ++ aid

/-- One iteration of the matching loop (source lines 116-138) on record
`(aid, rec)`.  `parse_atlas_id` raising (`aid` shorter than 7 characters)
is an uncaught `IndexError`, modelled as `none`; an unparsable wavelength
is caught (`ValueError`) and logged as skipped. -/
def stepMatch (rows : List Row) (s : MatchState) (p : String × AuthDict) :
    Option MatchState :=
  match parse_atlas_id p.1 with
  | none => none
  | some parts =>
    match parsePyInt parts.wavelength with
    | none => some { s with logLines := s.logLines ++ [skippedMsg p.1] }
    | some wl =>
      let matchMode := if parts.mode = "a" then "an" else "pc"
      match rows.filter (isCandidate s.usedCsvIds matchMode wl) with
      | [] => some { s with logLines := s.logLines ++ [notMatchedMsg p.1] }
      | r :: _ =>
        some
          { atlasToCsvId := dictInsert p.1 (rowField r "id") s.atlasToCsvId
            usedCsvIds := pySetAdd (rowField r "id") s.usedCsvIds
            logLines := s.logLines ++ [matchedMsg p.1 (rowField r "id")]
            matchedData := dictInsert (rowField r "id") p.2 s.matchedData }

/-- The whole matching loop over the authoritative map's items, in iteration
order.  `none` models the loop dying on an uncaught `IndexError`. -/
def runMatching (rows : List Row) (records : List (String × AuthDict)) :
    Option MatchState :=
  records.foldlM (stepMatch rows) initMatchState

/-! ## Row merge (`updated_rows`, source lines 141-161) -/

/-- The column names written by the merge branch, in assignment order. -/
def designatedFields : List String :=
  ["if_center", "if_fwhm", "emission_wavelength", "dead_time",
   "first_signal_rangebin", "trigger_delay", "_background_mode_id_id",
   "_Minimum_channel_height_", "_Maximum_channel_height_"]

/-- The background-mode flag (source line 153): `0` exactly when the
authoritative `Background Mode` string equals `"Pre-Trigger"`, else `1`
(`match.get` yields `None` when the key is absent, which also compares
unequal).  The Python value is the int `0`/`1`; it serializes as the digit,
so we store the digit string. -/
def bgFlag (m : AuthDict) : Cell :=
  some (if dictGetD m "Background Mode" none = some "Pre-Trigger" then "0" else "1")

/-- The matched branch of the merge loop (source lines 145-155): sequential
dict assignments on a copy of the row.  Each right-hand side is
`match.get(key, row.get(col, ""))` — the record's stored value whenever the
key is present (even if that value is `None`), the row's original value only
when the key is absent from the record. -/
def mergeMatchedRow (m : AuthDict) (row : Row) : Row :=
  let r1 := dictInsert "if_center"
    (dictGetD m "Interference filter center" (rowGetD row "if_center" (some ""))) row
  let r2 := dictInsert "if_fwhm"
    (dictGetD m "Interference filter FWHM" (rowGetD r1 "if_fwhm" (some ""))) r1
  let r3 := dictInsert "emission_wavelength"
    (dictGetD m "Emission Wavelength" (rowGetD r2 "emission_wavelength" (some ""))) r2
  let r4 := dictInsert "dead_time"
    (dictGetD m "Dead time" (rowGetD r3 "dead_time" (some ""))) r3
  let r5 := dictInsert "first_signal_rangebin"
    (dictGetD m "First signal rangebin" (rowGetD r4 "first_signal_rangebin" (some ""))) r4
  let r6 := dictInsert "trigger_delay"
    (dictGetD m "Trigger delay" (rowGetD r5 "trigger_delay" (some ""))) r5
  let r7 := dictInsert "_background_mode_id_id" (bgFlag m) r6
  let r8 := dictInsert "_Minimum_channel_height_"
    (dictGetD m "Minimum channel height" (some "")) r7
  dictInsert "_Maximum_channel_height_" (dictGetD m "Maximum channel height" (some "")) r8

/-- One iteration of the update loop (source lines 142-156): rows whose `id`
is a key of `matched_data` go through the matched branch, all others are
appended unchanged. -/
def updateRow (matchedData : List (Cell × AuthDict)) (row : Row) : Row :=
  match dlookup (rowField row "id") matchedData with
  | some m => mergeMatchedRow m row
  | none => row

/-- Column extension (source lines 158-159): append the two min/max-height
columns when the minimum-height column is not already present. -/
def extendCols (cols : List String) : List String :=
  if "_Minimum_channel_height_" ∈ cols then cols
  else cols ++ ["_Minimum_channel_height_", "_Maximum_channel_height_"]

/-- `reindex(columns=cols)` on a row: exactly the named columns, in order;
columns the row does not define become `NaN`. -/
def reindexRow (cols : List String) (r : Row) : Row :=
  cols.map (fun c => (c, rowField r c))

/-- The rewritten `HoiChannels` rows (source line 161): every original row,
in order, merged when matched and reindexed to the extended column list. -/
def updatedHoiRows (matchedData : List (Cell × AuthDict)) (cols : List String)
    (rows : List Row) : List Row :=
  rows.map (fun r => reindexRow (extendCols cols) (updateRow matchedData r))

/-! ## Polarization derivation (source lines 164-175) and its final filter

The cleanup pass later re-reads the section with `pd.read_csv`; writing a
cell with `fillna("")` and re-parsing it sends `None`/`NaN` and the empty
string to `NaN`.  `parseCellStr`/`cellOutStr` model that serialize/re-parse
round trip for a single cell. -/

/-- Default `NaN` string tokens of `pd.read_csv`. -/
def pdNaTokens : List String :=
  ["", "#N/A", "#N/A N/A", "#NA", "-1.#IND", "-1.#QNAN", "-NaN", "-nan",
   "1.#IND", "1.#QNAN", "<NA>", "N/A", "NA", "NULL", "NaN", "None", "n/a",
   "nan", "null"]

/-- CSV serialization of a cell under `fillna("")`. -/
def cellOutStr (c : Cell) : String := c.getD ""

/-- Re-parsing a serialized CSV field: `NaN` tokens come back as missing. -/
def parseCellStr (s : String) : Cell :=
  if s ∈ pdNaTokens then none else some s

/-- One derived polarization entry (source lines 167-171): every declared
column initialized to the empty string, then `channel_id`, `g`, `h` and
`measurement_date` assigned in order. -/
def polarEntry (cols : List String) (csvId gv hv date : Cell) : Row :=
  dictInsert "measurement_date" date
    (dictInsert "h" hv
      (dictInsert "g" gv
        (dictInsert "channel_id" csvId
          (cols.foldl (fun acc c => dictInsert c (some "") acc) []))))

/-- Whether a record yields a derived row (source line 166): its identifier
is in the correspondence and both `G` and `H` are non-null (`pd.notna`; a
present empty string passes). -/
def polarQualifies (a2c : List (String × Cell)) (p : String × AuthDict) : Bool :=
  (dlookup p.1 a2c).isSome && (dictGetD p.2 "G" none).isSome &&
    (dictGetD p.2 "H" none).isSome

/-- `polar_updates` (source lines 164-172): one entry per qualifying record,
in record order. -/
def polarUpdates (records : List (String × AuthDict)) (a2c : List (String × Cell))
    (date : Cell) (cols : List String) : List Row :=
  records.foldl
    (fun acc p =>
      if polarQualifies a2c p then
        acc ++ [polarEntry cols ((dlookup p.1 a2c).getD none)
          (dictGetD p.2 "G" none) (dictGetD p.2 "H" none) date]
      else acc)
    []

/-- `polar_df_clean` (source lines 174-175): restrict each entry to the
declared columns, then keep rows whose `g` and `h` are non-null. -/
def polarCleanRows (records : List (String × AuthDict)) (a2c : List (String × Cell))
    (date : Cell) (cols : List String) : List Row :=
  ((polarUpdates records a2c date cols).map (reindexRow cols)).filter
    (fun r => (rowField r "g").isSome && (rowField r "h").isSome)

/-- The cleanup pass's keep condition (source line 200) applied to a
derived cell after the CSV write/re-read round trip: re-parsed `g` non-null
and non-blank after stripping. -/
def gSurvives (c : Cell) : Bool :=
  match parseCellStr (cellOutStr c) with
  | some s => pyStrip s ≠ ""
  | none => false

/-- A polarization row as it stands in the final document after the cleanup
pass re-read it: each declared column's cell serialized and re-parsed. -/
def finalPolarRow (cols : List String) (r : Row) : Row :=
  cols.map (fun c => (c, parseCellStr (cellOutStr (rowField r c))))

/-- The polarization rows of the final output document: the assembled rows
surviving the cleanup pass's `g` filter, as re-read from the file. -/
def finalPolarRows (records : List (String × AuthDict)) (a2c : List (String × Cell))
    (date : Cell) (cols : List String) : List Row :=
  ((polarCleanRows records a2c date cols).filter
      (fun r => gSurvives (rowField r "g"))).map (finalPolarRow cols)

/-! ## Section guard and document assembly (source lines 93-100, 178-188)

The section markers are located right after the configuration file is read
(lines 93-100); a missing marker raises `ValueError` there, before the
output file is ever opened, so that abort leaves no output file at all.
Only when both markers were found does the run reach assembly: there the
output file is opened for writing and the preamble, merged channel section
and polarization section are written *before* `lines.index("Products\n")`
is evaluated, so a missing `Products` line raises `ValueError` only after
those writes and the (closed-on-exception) file already holds them. -/

/-- Marker location of source line 93: the dict comprehension maps each
stripped marker line to its index, a later occurrence overwriting an
earlier one, and `.get` returns the stored index or `None`. -/
def sectionIndex (marker : String) (lines : List String) : Option Nat :=
  lines.enum.foldl
    (fun acc p => if pyStrip p.2 = marker then some p.1 else acc) none

/-- The assembly write sequence, parameterized over the already-serialized
section bodies.  Returns `.ok` with the full document when the `Products`
marker exists, else `.error` carrying the partial content the file holds
when the uncaught `ValueError` aborts the run. -/
def assembleWrites (lines : List String) (hoiStart : Nat)
    (hoiHeader : String) (hoiBody : List String)
    (polarHeader : String) (polarBody : List String) :
    Except (List String) (List String) :=
  let written :=
    lines.take (hoiStart + 1) ++ [hoiHeader] ++ hoiBody ++ ["\n"] ++
      ["PolarizationCrosstalkParameter\n"] ++ [polarHeader] ++ polarBody ++
      ["\n"] ++ ["Products\n"]
  match lines.findIdx? (· == "Products\n") with
  | none => .error written
  | some i => .ok (written ++ lines.drop (i + 1))

/-- The section guard composed with assembly, tracking what is on disk when
the run aborts: `.error none` models the `ValueError` of lines 97-100
(either marker missing — the run dies before the output file is created),
`.error (some w)` the `ValueError` of line 188 (`Products` line missing —
the opened output file holds the partial content `w`). -/
def assembleStage (lines : List String) (hoiHeader : String)
    (hoiBody : List String) (polarHeader : String) (polarBody : List String) :
    Except (Option (List String)) (List String) :=
  match sectionIndex "HoiChannels" lines,
      sectionIndex "PolarizationCrosstalkParameter" lines with
  | some hoiStart, some _ =>
    match assembleWrites lines hoiStart hoiHeader hoiBody polarHeader polarBody with
    | .ok out => .ok out
    | .error w => .error (some w)
  | _, _ => .error none

/-! ## Cleanup pass (source lines 190-209)

The pass re-reads the just-written file as a line list, re-locates the
`PolarizationCrosstalkParameter` and `Products` marker lines, re-parses the
region between them with `pd.read_csv` (which skips blank lines and treats
its `NaN` tokens as missing), drops rows whose `g` is missing or blank after
stripping, and rewrites the region.  Any failure of the guarded body is
caught, so the pass as a whole returns the input unchanged on error.

Lines are `List Char`; a `read_csv` row is a positional cell list over the
header's column names.  (pandas mangles duplicate header names and fails on
a duplicated `g`; we keep the first occurrence instead — the scripts'
headers have distinct names.) -/

/-- One line of text, as read by `readlines` (trailing newline included). -/
abbrev Line := List Char

/-- `list.index(x)`: index of the first occurrence, `none` for the raised
`ValueError`. -/
def listIndex {α : Type} [DecidableEq α] (x : α) : List α → Option Nat
  | [] => none
  | a :: l => if a = x then some 0 else (listIndex x l).map (· + 1)

/-- The `PolarizationCrosstalkParameter` marker line. -/
def polarMarkerL : Line := "PolarizationCrosstalkParameter\n".toList

/-- The `Products` marker line. -/
def productsL : Line := "Products\n".toList

/-- The `g` column name. -/
def gColL : Line := ['g']

/-- A line's content without its trailing newline. -/
def contentOf (l : Line) : Line :=
  if l.getLast? = some '\n' then l.dropLast else l

/-- Split a line's content at commas. -/
def splitComma : Line → List Line
  | [] => [[]]
  | c :: rest =>
    match splitComma rest with
    | [] => [[]]
    | s :: ss => if c = ',' then [] :: s :: ss else (c :: s) :: ss

/-- Join CSV fields with commas. -/
def joinComma : List Line → Line
  | [] => []
  | [x] => x
  | x :: y :: xs => x ++ ',' :: joinComma (y :: xs)

/-- The `read_csv` `NaN` tokens, character-wise. -/
def pdNaTokensL : List Line := pdNaTokens.map String.toList

/-- Parse one CSV field: `NaN` tokens become missing. -/
def parseCellL (c : Line) : Option Line :=
  if c ∈ pdNaTokensL then none else some c

/-- Serialize one cell under `fillna("")`. -/
def cellOutL (c : Option Line) : Line := c.getD []

/-- Serialize one parsed row back to a line (`to_csv`, `lineterminator="\n"`,
no quoting needed: fields produced by splitting contain no commas). -/
def serializeRowL (cells : List (Option Line)) : Line :=
  joinComma (cells.map cellOutL) ++ ['\n']

/-- Parse one data line against a header of `n` columns: error (`none`) when
the line has more fields than the header, pad missing trailing fields with
`NaN` otherwise. -/
def parseDataLine (n : Nat) (l : Line) : Option (List (Option Line)) :=
  if n < ((splitComma (contentOf l)).map parseCellL).length then none
  else some ((splitComma (contentOf l)).map parseCellL ++
    List.replicate (n - ((splitComma (contentOf l)).map parseCellL).length) none)

/-- A parsed CSV region: header column names and positional rows. -/
structure CsvTable where
  cols : List Line
  rows : List (List (Option Line))
deriving DecidableEq, Repr

/-- `pd.read_csv` on a list of lines: blank lines are skipped everywhere, the
first non-blank line is the header, the rest are data rows; no lines at all
is an error (`EmptyDataError`). -/
def readCsvL (ls : List Line) : Option CsvTable :=
  match ls.filter (fun l => !(contentOf l).isEmpty) with
  | [] => none
  | h :: rest =>
    (rest.mapM (parseDataLine (splitComma (contentOf h)).length)).map
      (fun rows => ⟨splitComma (contentOf h), rows⟩)

/-- The cleanup keep condition on a parsed row, given the `g` column index:
`g` non-null and non-blank after stripping. -/
def keepRowL (gi : Nat) (r : List (Option Line)) : Bool :=
  match r.getD gi none with
  | some s => !(pyStripL s).isEmpty
  | none => false

/-- The guarded body of the cleanup pass: `none` models any raised exception
(missing marker, header line out of range, CSV parse failure, missing `g`
column), `some` the rewritten line list. -/
def cleanupCore (L : List Line) : Option (List Line) := do
  let ps ← listIndex polarMarkerL L
  let pj ← listIndex productsL L
  let header ← L.get? (ps + 1)
  let data := (L.drop (ps + 2)).take (pj - (ps + 2))
  let t ← readCsvL (header :: data)
  let gi ← listIndex gColL t.cols
  let kept := t.rows.filter (keepRowL gi)
  some (L.take (ps + 1) ++ [header] ++ kept.map serializeRowL ++ [['\n']] ++ L.drop pj)

/-- The cleanup pass as the run observes it: on any failure the exception is
caught and the file retains its previous content. -/
def cleanupRun (L : List Line) : List Line :=
  (cleanupCore L).getD L

/-! ## Invariant of the matching loop and concrete fixtures -/

/-- Invariant threaded through the matching loop: every mapped csv id is in
the used set, the mapped csv ids are pairwise distinct, and the mapping's
identifier keys are pairwise distinct. -/
def MatchInv (s : MatchState) : Prop :=
  (∀ v ∈ s.atlasToCsvId.map Prod.snd, v ∈ s.usedCsvIds) ∧
    (s.atlasToCsvId.map Prod.snd).Nodup ∧ (s.atlasToCsvId.map Prod.fst).Nodup

/-- Convert string literals to character-list lines. -/
def lns (l : List String) : List Line := l.map String.toList

/-- Fixture: an existing analog row at 532 nm. -/
def exRow1 : Row :=
  [("id", some "ch12"), ("_detection_mode_id_id", some "an"), ("if_center", some "531.98")]

/-- Fixture: an existing photon-counting row at 532 nm. -/
def exRow2 : Row :=
  [("id", some "ch13"), ("_detection_mode_id_id", some "pc"), ("if_center", some "532")]

/-- Fixture: a fully populated channel-table row for identifier `0532ppa`. -/
def exChan1 : PdfChanRow :=
  ⟨some "0532ppa", some "101", some "200", some "20000", some "3.8", some "10",
   some "0", some "532.1", some "532.0", some "0.5", some "1.23", some "0.98"⟩

/-- Fixture: the matching state after running on `exRow1`/`exRow2` with the
single record for `0532ppa`. -/
def exStateFinal : MatchState :=
  { atlasToCsvId := [("0532ppa", some "ch12")]
    usedCsvIds := [some "ch12"]
    logLines := ["Matched automatically: 0532ppa → CSV ID: ch12"]
    matchedData := [(some "ch12", chanToDict exChan1)] }

/-- Fixture: a channel-table row whose interference-filter-center cell was
extracted as `None`. -/
def exChan5 : PdfChanRow :=
  ⟨some "0532ppa", some "101", some "200", some "20000", some "3.8", some "10",
   some "0", some "532.1", none, some "0.5", some "1.23", some "0.98"⟩

/-- Fixture: an existing row with a populated `if_center`. -/
def exRow5 : Row := [("id", some "ch1"), ("if_center", some "532")]

/-- Fixture: `matched_data` mapping `ch1` to the record with the missing
filter-center value. -/
def exMd5 : List (Cell × AuthDict) := [(some "ch1", chanToDict exChan5)]

/-- Fixture: a channel-table row whose `H` cell is present but empty. -/
def exChan3 : PdfChanRow :=
  ⟨some "0532ppa", some "101", some "200", some "20000", some "3.8", some "10",
   some "0", some "532.1", some "532.0", some "0.5", some "1.23", some ""⟩

/-- Fixture: the authoritative map for the polarization counterexample. -/
def exRecords3 : List (String × AuthDict) := [("0532ppa", chanToDict exChan3)]

/-- Fixture: the resolved correspondence for the polarization counterexample. -/
def exA2c3 : List (String × Cell) := [("0532ppa", some "ch12")]

/-- Fixture: the polarization section's declared columns. -/
def exCols3 : List String := ["channel_id", "g", "h", "measurement_date"]

/-- Fixture: the single polarization row of the final output in the
counterexample run — its `h` field is empty. -/
def exFinalRow3 : Row :=
  [("channel_id", some "ch12"), ("g", some "1.23"), ("h", none),
   ("measurement_date", some "25/06/2025 00:00")]

/-- Fixture: a document whose first `Products` line precedes the
polarization marker. -/
def exC6 : List Line :=
  lns ["Products\n", "PolarizationCrosstalkParameter\n", "g\n"]

/-- Fixture: a well-formed document for the cleanup pass. -/
def exW6 : List Line :=
  lns ["pre\n", "PolarizationCrosstalkParameter\n", "channel_id,g,h\n",
       "c1,1.23,\n", "c2,,0.9\n", "\n", "Products\n", "tail\n"]

/-- Fixture: an existing document that contains both section markers — so a
run on it passes the section guard and reaches assembly — but no `Products`
line. -/
def exLines7 : List String :=
  ["HoiChannels\n", "id\n", "r1\n", "\n", "PolarizationCrosstalkParameter\n",
   "channel_id,g,h\n", "\n"]

/-- Fixture: the partial content the output file holds when assembly aborts
on `exLines7` (the run with an empty channel table: the single row passes
through unmerged, reindexed to the extended column list). -/
def exPartial7 : List String :=
  ["HoiChannels\n", "id,_Minimum_channel_height_,_Maximum_channel_height_\n",
   "r1,,\n", "\n", "PolarizationCrosstalkParameter\n", "channel_id,g,h\n",
   "\n", "Products\n"]

/-- Fixture: a line list on which the cleanup pass fails (no marker). -/
def exBad8 : List Line := lns ["x\n"]

/-- Fixture: two channel-table rows sharing the identifier `0532ppa`. -/
def exRows10 : List PdfChanRow := [exChan5, exChan1]

/-! ## Dictionary lemmas -/

theorem dlookup_dictInsert_self {κ α : Type} [DecidableEq κ] (k : κ) (v : α)
    (d : List (κ × α)) : dlookup k (dictInsert k v d) = some v := by
  induction d with
  | nil => simp [dictInsert, dlookup]
  | cons p rest ih =>
    obtain ⟨k', v'⟩ := p
    by_cases h : k' = k <;> simp [dictInsert, dlookup, h, ih]

theorem dlookup_dictInsert {κ α : Type} [DecidableEq κ] (c k : κ) (v : α)
    (d : List (κ × α)) :
    dlookup c (dictInsert k v d) = if k = c then some v else dlookup c d := by
  induction d with
  | nil => simp [dictInsert, dlookup]
  | cons p rest ih =>
    obtain ⟨k', v'⟩ := p
    by_cases hk : k' = k
    · subst hk
      by_cases hc : k' = c <;> simp [dictInsert, dlookup, hc]
    · by_cases hc : k' = c
      · subst hc
        have hkc : ¬ k = k' := fun he => hk he.symm
        simp [dictInsert, dlookup, hk, hkc]
      · simp [dictInsert, dlookup, hk, hc, ih]

theorem dlookup_dictInsert_ne {κ α : Type} [DecidableEq κ] {c k : κ} (h : c ≠ k)
    (v : α) (d : List (κ × α)) : dlookup c (dictInsert k v d) = dlookup c d := by
  rw [dlookup_dictInsert]
  exact if_neg fun he => h he.symm

theorem mem_snd_dictInsert {κ α : Type} [DecidableEq κ] {x : α} {k : κ} {v : α}
    {d : List (κ × α)} (hx : x ∈ (dictInsert k v d).map Prod.snd) :
    x = v ∨ x ∈ d.map Prod.snd := by
  induction d with
  | nil => simpa [dictInsert] using hx
  | cons p rest ih =>
    obtain ⟨k', v'⟩ := p
    by_cases h : k' = k
    · simp only [dictInsert, if_pos h, List.map_cons, List.mem_cons] at hx
      rcases hx with hx | hx
      · exact Or.inl hx
      · exact Or.inr (by simp [hx])
    · simp only [dictInsert, if_neg h, List.map_cons, List.mem_cons] at hx
      rcases hx with hx | hx
      · exact Or.inr (by simp [hx])
      · rcases ih hx with hx | hx
        · exact Or.inl hx
        · exact Or.inr (by simp [hx])

theorem mem_fst_dictInsert {κ α : Type} [DecidableEq κ] {x k : κ} {v : α}
    {d : List (κ × α)} (hx : x ∈ (dictInsert k v d).map Prod.fst) :
    x = k ∨ x ∈ d.map Prod.fst := by
  induction d with
  | nil => simpa [dictInsert] using hx
  | cons p rest ih =>
    obtain ⟨k', v'⟩ := p
    by_cases h : k' = k
    · simp only [dictInsert, if_pos h, List.map_cons, List.mem_cons] at hx
      rcases hx with hx | hx
      · exact Or.inl hx
      · exact Or.inr (by simp [hx])
    · simp only [dictInsert, if_neg h, List.map_cons, List.mem_cons] at hx
      rcases hx with hx | hx
      · exact Or.inr (by simp [hx])
      · rcases ih hx with hx | hx
        · exact Or.inl hx
        · exact Or.inr (by simp [hx])

theorem nodup_snd_dictInsert {κ α : Type} [DecidableEq κ] {k : κ} {v : α}
    {d : List (κ × α)} (hv : v ∉ d.map Prod.snd) (hd : (d.map Prod.snd).Nodup) :
    ((dictInsert k v d).map Prod.snd).Nodup := by
  induction d with
  | nil => simp [dictInsert]
  | cons p rest ih =>
    obtain ⟨k', v'⟩ := p
    simp only [List.map_cons, List.nodup_cons, List.mem_cons] at hd hv
    push_neg at hv
    by_cases h : k' = k
    · simp only [dictInsert, if_pos h, List.map_cons, List.nodup_cons]
      exact ⟨fun hm => hv.2 hm, hd.2⟩
    · simp only [dictInsert, if_neg h, List.map_cons, List.nodup_cons]
      refine ⟨fun hm => ?_, ih hv.2 hd.2⟩
      rcases mem_snd_dictInsert hm with hm | hm
      · exact hv.1 hm.symm
      · exact hd.1 hm

theorem nodup_fst_dictInsert {κ α : Type} [DecidableEq κ] {k : κ} {v : α}
    {d : List (κ × α)} (hd : (d.map Prod.fst).Nodup) :
    ((dictInsert k v d).map Prod.fst).Nodup := by
  induction d with
  | nil => simp [dictInsert]
  | cons p rest ih =>
    obtain ⟨k', v'⟩ := p
    simp only [List.map_cons, List.nodup_cons] at hd
    by_cases h : k' = k
    · simp only [dictInsert, if_pos h, List.map_cons, List.nodup_cons]
      exact ⟨h ▸ hd.1, hd.2⟩
    · simp only [dictInsert, if_neg h, List.map_cons, List.nodup_cons]
      refine ⟨fun hm => ?_, ih hd.2⟩
      rcases mem_fst_dictInsert hm with hm | hm
      · exact h hm
      · exact hd.1 hm

theorem mem_pySetAdd {α : Type} [DecidableEq α] {x v : α} {s : List α}
    (hx : x = v ∨ x ∈ s) : x ∈ pySetAdd v s := by
  unfold pySetAdd
  by_cases h : v ∈ s
  · rcases hx with rfl | hx <;> simp [h, *]
  · rcases hx with rfl | hx <;> simp [h, *]

/-! ## C9 — identifier parsing -/

/-- C9 counterexample: the claim says parsing has no error path for any
input string, but a 6-character identifier raises `IndexError` at
`atlas_id[6]` (modelled as `none`). -/
theorem parse_atlas_short_cx : parse_atlas_id "123456" = none := by decide

/-- C9 (amended): for identifiers of length at least 7 parsing never errors;
the wavelength field is the 4-character positional slice, and a string of
length exactly 7 — shorter than the full 8-character layout — yields an
empty suffix. -/
theorem parse_atlas_total_amended (s : String) (h : 7 ≤ s.length) :
    (parse_atlas_id s).isSome = true ∧
      ((parse_atlas_id s).getD default).wavelength = (s.toList.take 4).asString ∧
      ((parse_atlas_id s).getD default).suffix =
        (if s.length = 7 then "" else (s.toList.getD 7 ' ').toString) := by
  have hl : 7 ≤ s.toList.length := h
  refine ⟨by simp [parse_atlas_id, hl, h], by simp [parse_atlas_id, hl, h], ?_⟩
  by_cases h7 : s.length = 7
  · have h7l : ¬ 7 < s.toList.length := by
      have : s.toList.length = 7 := h7
      omega
    simp [parse_atlas_id, hl, h, h7, h7l]
  · have h7l : 7 < s.toList.length := by
      have : s.toList.length ≠ 7 := h7
      omega
    simp only [parse_atlas_id, hl, if_pos, Option.getD_some, h7, if_neg]
    simp [h7l]
    intro hle
    exact absurd hle (by omega)

/-- C9 witness: the amended theorem applied to a 7-character identifier. -/
theorem parse_atlas_total_witness :
    (parse_atlas_id "0532ppa").isSome = true ∧
      ((parse_atlas_id "0532ppa").getD default).wavelength =
        ("0532ppa".toList.take 4).asString ∧
      ((parse_atlas_id "0532ppa").getD default).suffix =
        (if "0532ppa".length = 7 then ""
          else ("0532ppa".toList.getD 7 ' ').toString) :=
  parse_atlas_total_amended "0532ppa" (by decide)

/-! ## C10 — last row wins in the authoritative map -/

theorem buildChannelPhase_go (aid : String) (h : pyStrip aid ≠ "ATLAS ID") :
    ∀ (rows : List PdfChanRow) (acc : List (String × AuthDict)),
      dlookup aid (rows.foldl
          (fun m r =>
            match r.atlasId with
            | some a => if pyStrip a ≠ "ATLAS ID" then dictInsert a (chanToDict r) m else m
            | none => m)
          acc) =
        (((rows.filter (fun r => r.atlasId == some aid)).getLast?).map chanToDict
          <|> dlookup aid acc) := by
  intro rows
  induction rows with
  | nil => intro acc; simp
  | cons r rest ih =>
    intro acc
    rw [List.foldl_cons, ih]
    by_cases hp : r.atlasId = some aid
    · rw [List.filter_cons_of_pos (by simp [hp]), List.getLast?_cons]
      cases hlast : (rest.filter (fun r => r.atlasId == some aid)).getLast? with
      | some x => simp [hlast]
      | none =>
        simp only [hlast, Option.getD_none, Option.map_none, Option.none_orElse,
          Option.map_some, Option.some_orElse]
        rw [hp]
        show dlookup aid (if pyStrip aid ≠ "ATLAS ID"
            then dictInsert aid (chanToDict r) acc else acc) = some (chanToDict r)
        rw [if_pos h, dlookup_dictInsert_self]
    · rw [List.filter_cons_of_neg (by simp [hp])]
      congr 1
      funext x
      cases ha : r.atlasId with
      | none => simp
      | some a =>
        have hne : aid ≠ a := by
          intro he; exact hp (by rw [ha, he])
        show dlookup aid (if pyStrip a ≠ "ATLAS ID"
            then dictInsert a (chanToDict r) acc else acc) = dlookup aid acc
        by_cases ht : pyStrip a ≠ "ATLAS ID" <;>
          simp [ht, dlookup_dictInsert_ne hne]

theorem buildChannelPhase_keys_nodup :
    ∀ (rows : List PdfChanRow) (acc : List (String × AuthDict)),
      (acc.map Prod.fst).Nodup →
      ((rows.foldl
          (fun m r =>
            match r.atlasId with
            | some a => if pyStrip a ≠ "ATLAS ID" then dictInsert a (chanToDict r) m else m
            | none => m)
          acc).map Prod.fst).Nodup := by
  intro rows
  induction rows with
  | nil => intro acc hacc; simpa using hacc
  | cons r rest ih =>
    intro acc hacc
    simp only [List.foldl_cons]
    apply ih
    cases r.atlasId with
    | none => exact hacc
    | some a =>
      by_cases ht : pyStrip a ≠ "ATLAS ID" <;> simp [ht, nodup_fst_dictInsert hacc, hacc]

/-- C10: when the channel table holds several data rows for the same
identifier, the authoritative map keeps exactly one record for it (its keys
are pairwise distinct), and that record is the `to_dict` of the last such
row in table order — later rows silently overwrite earlier ones. -/
theorem channel_map_last_wins (rows : List PdfChanRow) (aid : String)
    (h : pyStrip aid ≠ "ATLAS ID") :
    dlookup aid (buildChannelPhase rows) =
      ((rows.filter (fun r => r.atlasId == some aid)).getLast?).map chanToDict ∧
    ((buildChannelPhase rows).map Prod.fst).Nodup := by
  constructor
  · rw [buildChannelPhase, buildChannelPhase_go aid h rows []]
    simp [dlookup]
  · exact buildChannelPhase_keys_nodup rows [] (by simp)

/-- C10 witness: two rows share `0532ppa`; the map holds the second row's
record. -/
theorem channel_map_last_wins_witness :
    dlookup "0532ppa" (buildChannelPhase exRows10) =
      ((exRows10.filter (fun r => r.atlasId == some "0532ppa")).getLast?).map chanToDict ∧
    ((buildChannelPhase exRows10).map Prod.fst).Nodup :=
  channel_map_last_wins exRows10 "0532ppa" (by decide)

/-! ## C1 — injectivity of the correspondence -/

theorem stepMatch_inv {rows : List Row} {s s' : MatchState} {p : String × AuthDict}
    (hs : stepMatch rows s p = some s') (hI : MatchInv s) : MatchInv s' := by
  cases hp : parse_atlas_id p.1 with
  | none => simp [stepMatch, hp] at hs
  | some parts =>
    cases hw : parsePyInt parts.wavelength with
    | none =>
      simp only [stepMatch, hp, hw] at hs
      obtain rfl := Option.some.inj hs
      exact hI
    | some wl =>
      simp only [stepMatch, hp, hw] at hs
      cases hf : rows.filter
          (isCandidate s.usedCsvIds (if parts.mode = "a" then "an" else "pc") wl) with
      | nil =>
        rw [hf] at hs
        obtain rfl := Option.some.inj hs
        exact hI
      | cons r t =>
        rw [hf] at hs
        obtain rfl := Option.some.inj hs
        have hrmem : r ∈ rows.filter
            (isCandidate s.usedCsvIds (if parts.mode = "a" then "an" else "pc") wl) := by
          rw [hf]; exact List.mem_cons_self r t
        have hcand := (List.mem_filter.mp hrmem).2
        simp only [isCandidate, Bool.and_eq_true, Bool.not_eq_true'] at hcand
        have hv : rowField r "id" ∉ s.usedCsvIds := by
          intro hmem
          have hc : s.usedCsvIds.contains (rowField r "id") = true :=
            List.elem_iff.mpr hmem
          rw [hcand.2] at hc
          exact Bool.false_ne_true hc
        have hv' : rowField r "id" ∉ s.atlasToCsvId.map Prod.snd :=
          fun hm => hv (hI.1 _ hm)
        refine ⟨?_, ?_, ?_⟩
        · intro x hx
          rcases mem_snd_dictInsert hx with hx | hx
        -- the new mapping's values all lie in the new used set
          · exact mem_pySetAdd (Or.inl hx)
          · exact mem_pySetAdd (Or.inr (hI.1 x hx))
        · exact nodup_snd_dictInsert hv' hI.2.1
        · exact nodup_fst_dictInsert hI.2.2

theorem runMatching_inv (rows : List Row) :
    ∀ (records : List (String × AuthDict)) (s0 s : MatchState),
      MatchInv s0 → List.foldlM (stepMatch rows) s0 records = some s → MatchInv s := by
  intro records
  induction records with
  | nil =>
    intro s0 s h0 hf
    simp only [List.foldlM_nil] at hf
    obtain rfl := Option.some.inj hf
    exact h0
  | cons a l ih =>
    intro s0 s h0 hf
    rw [List.foldlM_cons] at hf
    cases he : stepMatch rows s0 a with
    | none => rw [he] at hf; simp at hf
    | some s1 =>
      rw [he] at hf
      simp only [Option.bind_eq_bind, Option.some_bind] at hf
      exact ih s1 s (stepMatch_inv he h0) hf

/-- C1: for every run of the matching loop, no two authoritative identifiers
are mapped to the same existing-row id (the mapped csv ids are pairwise
distinct, enforced by the used-id set threaded through the loop), and each
authoritative record yields at most one mapping entry (the identifier keys
are pairwise distinct). -/
theorem correspondence_injective (rows : List Row)
    (records : List (String × AuthDict)) (s : MatchState)
    (h : runMatching rows records = some s) :
    (s.atlasToCsvId.map Prod.snd).Nodup ∧ (s.atlasToCsvId.map Prod.fst).Nodup := by
  have hI := runMatching_inv rows records initMatchState s
    (by exact ⟨by simp [initMatchState], by simp [initMatchState], by simp [initMatchState]⟩) h
  exact ⟨hI.2.1, hI.2.2⟩

/-- C1 witness: the injectivity theorem applied to the concrete run on
`exRow1`/`exRow2`. -/
theorem correspondence_injective_witness :
    (exStateFinal.atlasToCsvId.map Prod.snd).Nodup ∧
      (exStateFinal.atlasToCsvId.map Prod.fst).Nodup :=
  correspondence_injective [exRow1, exRow2] [("0532ppa", chanToDict exChan1)]
    exStateFinal (by decide)

/-! ## C2 — greedy first-candidate matching -/

/-- C2: one iteration of the matching loop on a record whose identifier
parses and whose wavelength prefix is an integer: the candidate set is
exactly the existing rows passing `isCandidate` (expected mode, normalized
`if_center`, id unused); when it is non-empty the selected row is the first
candidate in the existing rows' original order (`List.find?`), its id is
marked used, the pair is recorded and a Matched entry logged; when empty an
Unmatched entry is logged and the mapping, used set and matched data are
unchanged. -/
theorem greedy_first_candidate (rows : List Row) (s : MatchState)
    (aid : String) (rec : AuthDict) (parts : AtlasParts) (wl : Int)
    (hp : parse_atlas_id aid = some parts)
    (hw : parsePyInt parts.wavelength = some wl) :
    (rows.filter (isCandidate s.usedCsvIds
        (if parts.mode = "a" then "an" else "pc") wl) = [] →
      stepMatch rows s (aid, rec) =
        some { s with logLines := s.logLines ++ [notMatchedMsg aid] }) ∧
    (∀ r rs, rows.filter (isCandidate s.usedCsvIds
        (if parts.mode = "a" then "an" else "pc") wl) = r :: rs →
      rows.find? (isCandidate s.usedCsvIds
        (if parts.mode = "a" then "an" else "pc") wl) = some r ∧
      stepMatch rows s (aid, rec) =
        some { atlasToCsvId := dictInsert aid (rowField r "id") s.atlasToCsvId
               usedCsvIds := pySetAdd (rowField r "id") s.usedCsvIds
               logLines := s.logLines ++ [matchedMsg aid (rowField r "id")]
               matchedData := dictInsert (rowField r "id") rec s.matchedData }) := by
  constructor
  · intro hc
    simp only [stepMatch, hp, hw]
    rw [hc]
  · intro r rs hc
    constructor
    · rw [← List.filter_head?, hc]
      rfl
    · simp only [stepMatch, hp, hw]
      rw [hc]

/-- C2 witness: the step characterization applied to the concrete record
`0532ppa` against `exRow1`/`exRow2` from the initial state. -/
theorem greedy_first_candidate_witness :
    ([exRow1, exRow2].filter (isCandidate initMatchState.usedCsvIds
        (if (⟨"0532", "p", "p", "a", ""⟩ : AtlasParts).mode = "a" then "an" else "pc")
        532) = [] →
      stepMatch [exRow1, exRow2] initMatchState ("0532ppa", chanToDict exChan1) =
        some { initMatchState with
          logLines := initMatchState.logLines ++ [notMatchedMsg "0532ppa"] }) ∧
    (∀ r rs, [exRow1, exRow2].filter (isCandidate initMatchState.usedCsvIds
        (if (⟨"0532", "p", "p", "a", ""⟩ : AtlasParts).mode = "a" then "an" else "pc")
        532) = r :: rs →
      [exRow1, exRow2].find? (isCandidate initMatchState.usedCsvIds
        (if (⟨"0532", "p", "p", "a", ""⟩ : AtlasParts).mode = "a" then "an" else "pc")
        532) = some r ∧
      stepMatch [exRow1, exRow2] initMatchState ("0532ppa", chanToDict exChan1) =
        some { atlasToCsvId :=
                 dictInsert "0532ppa" (rowField r "id") initMatchState.atlasToCsvId
               usedCsvIds := pySetAdd (rowField r "id") initMatchState.usedCsvIds
               logLines := initMatchState.logLines ++
                 [matchedMsg "0532ppa" (rowField r "id")]
               matchedData :=
                 dictInsert (rowField r "id") (chanToDict exChan1)
                   initMatchState.matchedData }) :=
  greedy_first_candidate [exRow1, exRow2] initMatchState "0532ppa"
    (chanToDict exChan1) ⟨"0532", "p", "p", "a", ""⟩ 532 (by decide) (by decide)

/-! ## Row-field lemmas -/

theorem rowField_dictInsert (k : String) (v : Cell) (r : Row) (c : String) :
    rowField (dictInsert k v r) c = if c = k then v else rowField r c := by
  unfold rowField
  rw [dlookup_dictInsert]
  by_cases h : c = k
  · simp [h]
  · have hk : ¬ k = c := fun he => h he.symm
    simp [h, hk]

theorem rowGetD_dictInsert (k : String) (v : Cell) (r : Row) (c : String) (d : Cell) :
    rowGetD (dictInsert k v r) c d = if c = k then v else rowGetD r c d := by
  unfold rowGetD
  rw [dlookup_dictInsert]
  by_cases h : c = k
  · simp [h]
  · have hk : ¬ k = c := fun he => h he.symm
    simp [h, hk]

theorem dlookup_map_keyed (cols : List String) (f : String → Cell) (c : String) :
    dlookup c (cols.map (fun x => (x, f x))) =
      if c ∈ cols then some (f c) else none := by
  induction cols with
  | nil => simp [dlookup]
  | cons a rest ih =>
    by_cases h : a = c
    · subst h
      simp [dlookup]
    · have hc : ¬ c = a := fun he => h he.symm
      simp [dlookup, h, ih, hc]

theorem rowField_reindex (cols : List String) (r : Row) (c : String) (h : c ∈ cols) :
    dlookup c (reindexRow cols r) = some (rowField r c) := by
  unfold reindexRow
  rw [dlookup_map_keyed cols (fun x => rowField r x) c, if_pos h]

/-! ## C4 — non-destructive merge -/

/-- C4: an existing row whose id is not a key of `matched_data` passes
through the update loop unchanged — every field of the output row equals the
corresponding input field — and the reindexed output row still yields the
original value on every original column; the only column-set change is the
appending of the two new min/max-height columns when absent. -/
theorem merge_nondestructive (matchedData : List (Cell × AuthDict)) (row : Row)
    (cols : List String) (h : dlookup (rowField row "id") matchedData = none) :
    updateRow matchedData row = row ∧
    (∀ c ∈ cols, dlookup c (reindexRow (extendCols cols) (updateRow matchedData row)) =
      some (rowField row c)) ∧
    ("_Minimum_channel_height_" ∉ cols →
      extendCols cols = cols ++ ["_Minimum_channel_height_", "_Maximum_channel_height_"]) := by
  have h1 : updateRow matchedData row = row := by
    simp [updateRow, h]
  refine ⟨h1, ?_, ?_⟩
  · intro c hc
    rw [h1]
    have hmem : c ∈ extendCols cols := by
      unfold extendCols
      by_cases hm : "_Minimum_channel_height_" ∈ cols
      · simpa [hm] using hc
      · simp only [hm, if_neg, not_false_eq_true]
        exact List.mem_append_left _ hc
    exact rowField_reindex _ row c hmem
  · intro hm
    simp [extendCols, hm]

/-- C4 witness: the frame theorem applied to the unmatched row `ch13`. -/
theorem merge_nondestructive_witness :
    updateRow exMd5 exRow2 = exRow2 ∧
    (∀ c ∈ ["id", "_detection_mode_id_id", "if_center"],
      dlookup c (reindexRow (extendCols ["id", "_detection_mode_id_id", "if_center"])
        (updateRow exMd5 exRow2)) = some (rowField exRow2 c)) ∧
    ("_Minimum_channel_height_" ∉ ["id", "_detection_mode_id_id", "if_center"] →
      extendCols ["id", "_detection_mode_id_id", "if_center"] =
        ["id", "_detection_mode_id_id", "if_center"] ++
          ["_Minimum_channel_height_", "_Maximum_channel_height_"]) :=
  merge_nondestructive exMd5 exRow2 ["id", "_detection_mode_id_id", "if_center"]
    (by decide)

/-! ## C5 — merge field-update rule -/

/-- C5 counterexample: the claim says a designated field keeps the row's
original value when the authoritative value is absent, but `dict.get(key,
fallback)` returns a stored `None`: for the matched row `ch1`, whose record's
interference-filter-center cell is `None`, the output `if_center` is missing
(serializes empty) instead of the original `"532"`. -/
theorem merge_update_cx :
    rowField exRow5 "if_center" = some "532" ∧
    rowField (updateRow exMd5 exRow5) "if_center" = none := by decide

/-- C5 (amended): for a matched row only the designated fields are written;
each designated field receives `match.get(key, fallback)` — the record's
stored value whenever the key is present, even when that value is missing
(which overwrites the original with an empty cell), with the row's original
value used only when the key is absent from the record — and the
background-mode flag is `0` exactly when the record's `Background Mode`
value is the string `"Pre-Trigger"`. -/
theorem merge_update_amended (matchedData : List (Cell × AuthDict)) (row : Row)
    (m : AuthDict) (h : dlookup (rowField row "id") matchedData = some m) :
    (∀ c, c ∉ designatedFields →
      rowField (updateRow matchedData row) c = rowField row c) ∧
    rowField (updateRow matchedData row) "if_center" =
      dictGetD m "Interference filter center" (rowGetD row "if_center" (some "")) ∧
    rowField (updateRow matchedData row) "if_fwhm" =
      dictGetD m "Interference filter FWHM" (rowGetD row "if_fwhm" (some "")) ∧
    rowField (updateRow matchedData row) "emission_wavelength" =
      dictGetD m "Emission Wavelength" (rowGetD row "emission_wavelength" (some "")) ∧
    rowField (updateRow matchedData row) "dead_time" =
      dictGetD m "Dead time" (rowGetD row "dead_time" (some "")) ∧
    rowField (updateRow matchedData row) "first_signal_rangebin" =
      dictGetD m "First signal rangebin" (rowGetD row "first_signal_rangebin" (some "")) ∧
    rowField (updateRow matchedData row) "trigger_delay" =
      dictGetD m "Trigger delay" (rowGetD row "trigger_delay" (some "")) ∧
    rowField (updateRow matchedData row) "_Minimum_channel_height_" =
      dictGetD m "Minimum channel height" (some "") ∧
    rowField (updateRow matchedData row) "_Maximum_channel_height_" =
      dictGetD m "Maximum channel height" (some "") ∧
    (rowField (updateRow matchedData row) "_background_mode_id_id" = some "0" ↔
      dictGetD m "Background Mode" none = some "Pre-Trigger") := by
  have hu : updateRow matchedData row = mergeMatchedRow m row := by
    simp [updateRow, h]
  rw [hu]
  refine ⟨?_, ?_, ?_, ?_, ?_, ?_, ?_, ?_, ?_, ?_⟩
  · intro c hc
    simp only [designatedFields, List.mem_cons, List.not_mem_nil, or_false] at hc
    push_neg at hc
    obtain ⟨h1, h2, h3, h4, h5, h6, h7, h8, h9⟩ := hc
    simp [mergeMatchedRow, rowField_dictInsert, h1, h2, h3, h4, h5, h6, h7, h8, h9]
  · simp [mergeMatchedRow, rowField_dictInsert, rowGetD_dictInsert]
  · simp [mergeMatchedRow, rowField_dictInsert, rowGetD_dictInsert]
  · simp [mergeMatchedRow, rowField_dictInsert, rowGetD_dictInsert]
  · simp [mergeMatchedRow, rowField_dictInsert, rowGetD_dictInsert]
  · simp [mergeMatchedRow, rowField_dictInsert, rowGetD_dictInsert]
  · simp [mergeMatchedRow, rowField_dictInsert, rowGetD_dictInsert]
  · simp [mergeMatchedRow, rowField_dictInsert, rowGetD_dictInsert]
  · simp [mergeMatchedRow, rowField_dictInsert, rowGetD_dictInsert]
  · simp only [mergeMatchedRow, rowField_dictInsert]
    by_cases hb : dictGetD m "Background Mode" none = some "Pre-Trigger" <;>
      simp [bgFlag, hb]

/-- C5 witness: the amended per-field characterization applied to the matched
row `ch1` with the record of `exChan5`. -/
theorem merge_update_amended_witness :
    (∀ c, c ∉ designatedFields →
      rowField (updateRow exMd5 exRow5) c = rowField exRow5 c) ∧
    rowField (updateRow exMd5 exRow5) "if_center" =
      dictGetD (chanToDict exChan5) "Interference filter center"
        (rowGetD exRow5 "if_center" (some "")) ∧
    rowField (updateRow exMd5 exRow5) "if_fwhm" =
      dictGetD (chanToDict exChan5) "Interference filter FWHM"
        (rowGetD exRow5 "if_fwhm" (some "")) ∧
    rowField (updateRow exMd5 exRow5) "emission_wavelength" =
      dictGetD (chanToDict exChan5) "Emission Wavelength"
        (rowGetD exRow5 "emission_wavelength" (some "")) ∧
    rowField (updateRow exMd5 exRow5) "dead_time" =
      dictGetD (chanToDict exChan5) "Dead time" (rowGetD exRow5 "dead_time" (some "")) ∧
    rowField (updateRow exMd5 exRow5) "first_signal_rangebin" =
      dictGetD (chanToDict exChan5) "First signal rangebin"
        (rowGetD exRow5 "first_signal_rangebin" (some "")) ∧
    rowField (updateRow exMd5 exRow5) "trigger_delay" =
      dictGetD (chanToDict exChan5) "Trigger delay"
        (rowGetD exRow5 "trigger_delay" (some "")) ∧
    rowField (updateRow exMd5 exRow5) "_Minimum_channel_height_" =
      dictGetD (chanToDict exChan5) "Minimum channel height" (some "") ∧
    rowField (updateRow exMd5 exRow5) "_Maximum_channel_height_" =
      dictGetD (chanToDict exChan5) "Maximum channel height" (some "") ∧
    (rowField (updateRow exMd5 exRow5) "_background_mode_id_id" = some "0" ↔
      dictGetD (chanToDict exChan5) "Background Mode" none = some "Pre-Trigger") :=
  merge_update_amended exMd5 exRow5 (chanToDict exChan5) (by decide)

/-! ## C3 — polarization completeness -/

theorem foldl_filter_append {α β : Type} (q : α → Bool) (f : α → β) :
    ∀ (l : List α) (acc : List β),
      l.foldl (fun acc p => if q p then acc ++ [f p] else acc) acc =
        acc ++ (l.filter q).map f := by
  intro l
  induction l with
  | nil => intro acc; simp
  | cons a rest ih =>
    intro acc
    by_cases hq : q a <;> simp [hq, ih, List.append_assoc]

theorem polarUpdates_eq (records : List (String × AuthDict))
    (a2c : List (String × Cell)) (date : Cell) (cols : List String) :
    polarUpdates records a2c date cols =
      (records.filter (polarQualifies a2c)).map
        (fun p => polarEntry cols ((dlookup p.1 a2c).getD none)
          (dictGetD p.2 "G" none) (dictGetD p.2 "H" none) date) := by
  unfold polarUpdates
  rw [foldl_filter_append (polarQualifies a2c)
    (fun p => polarEntry cols ((dlookup p.1 a2c).getD none)
      (dictGetD p.2 "G" none) (dictGetD p.2 "H" none) date) records []]
  simp

theorem rowField_polarEntry_g (cols : List String) (i g h d : Cell) :
    rowField (polarEntry cols i g h d) "g" = g := by
  simp [polarEntry, rowField_dictInsert]

theorem rowField_polarEntry_h (cols : List String) (i g h d : Cell) :
    rowField (polarEntry cols i g h d) "h" = h := by
  simp [polarEntry, rowField_dictInsert]

theorem rowField_reindex' (cols : List String) (r : Row) (c : String) (h : c ∈ cols) :
    rowField (reindexRow cols r) c = rowField r c := by
  unfold rowField
  rw [rowField_reindex cols r c h]
  rfl

theorem rowField_finalPolarRow (cols : List String) (r : Row) (c : String)
    (h : c ∈ cols) :
    rowField (finalPolarRow cols r) c = parseCellStr (cellOutStr (rowField r c)) := by
  unfold finalPolarRow rowField
  rw [dlookup_map_keyed cols _ c, if_pos h]
  rfl

theorem polarCleanRows_eq (records : List (String × AuthDict))
    (a2c : List (String × Cell)) (date : Cell) (cols : List String)
    (hg : "g" ∈ cols) (hh : "h" ∈ cols) :
    polarCleanRows records a2c date cols =
      (records.filter (polarQualifies a2c)).map
        (fun p => reindexRow cols (polarEntry cols ((dlookup p.1 a2c).getD none)
          (dictGetD p.2 "G" none) (dictGetD p.2 "H" none) date)) := by
  unfold polarCleanRows
  rw [polarUpdates_eq, List.map_map]
  apply List.filter_eq_self.mpr
  intro r hr
  obtain ⟨p, hp, rfl⟩ := List.mem_map.mp hr
  have hq := (List.mem_filter.mp hp).2
  simp only [polarQualifies, Bool.and_eq_true] at hq
  simp only [Function.comp_apply, Bool.and_eq_true]
  rw [rowField_reindex' cols _ _ hg, rowField_reindex' cols _ _ hh,
    rowField_polarEntry_g, rowField_polarEntry_h]
  exact ⟨hq.1.2, hq.2⟩

/-- C3 counterexample: an authoritative record with a matched identifier,
`G = "1.23"` and `H` present but empty yields exactly one final polarization
row, and that row's `h` is missing (serializes as the empty string) — the
final document is not free of empty `h` values, and the cleanup pass does
not filter on `h`. -/
theorem polar_completeness_cx :
    finalPolarRows exRecords3 exA2c3 (some "25/06/2025 00:00") exCols3 =
      [exFinalRow3] ∧
    rowField exFinalRow3 "h" = none := by decide

/-- C3 (amended): the final output's polarization rows are exactly one row
per authoritative record that matched, has non-null `G` and `H`, and whose
`G` survives the cleanup filter (non-blank after serialization), in record
order; every such final row has a non-empty (after stripping) `g`.  Rows
whose `G` or `H` is null are dropped at derivation time, but the cleanup
pass filters only on `g`, so a present-but-empty `H` reaches the output. -/
theorem polar_completeness_amended (records : List (String × AuthDict))
    (a2c : List (String × Cell)) (date : Cell) (cols : List String)
    (hg : "g" ∈ cols) (hh : "h" ∈ cols) :
    finalPolarRows records a2c date cols =
      (records.filter (fun p => gSurvives (dictGetD p.2 "G" none) &&
          polarQualifies a2c p)).map
        (fun p => finalPolarRow cols (reindexRow cols (polarEntry cols
          ((dlookup p.1 a2c).getD none) (dictGetD p.2 "G" none)
          (dictGetD p.2 "H" none) date))) ∧
    (∀ r ∈ finalPolarRows records a2c date cols,
      ∃ s, rowField r "g" = some s ∧ pyStrip s ≠ "") := by
  have hmain : finalPolarRows records a2c date cols =
      (records.filter (fun p => gSurvives (dictGetD p.2 "G" none) &&
          polarQualifies a2c p)).map
        (fun p => finalPolarRow cols (reindexRow cols (polarEntry cols
          ((dlookup p.1 a2c).getD none) (dictGetD p.2 "G" none)
          (dictGetD p.2 "H" none) date))) := by
    unfold finalPolarRows
    rw [polarCleanRows_eq records a2c date cols hg hh, List.filter_map]
    have hcong : ((records.filter (polarQualifies a2c)).filter
        ((fun r => gSurvives (rowField r "g")) ∘
          (fun p => reindexRow cols (polarEntry cols ((dlookup p.1 a2c).getD none)
            (dictGetD p.2 "G" none) (dictGetD p.2 "H" none) date)))) =
        ((records.filter (polarQualifies a2c)).filter
          (fun p => gSurvives (dictGetD p.2 "G" none))) := by
      apply List.filter_congr
      intro p hp
      simp only [Function.comp_apply]
      rw [rowField_reindex' cols _ _ hg, rowField_polarEntry_g]
    rw [hcong, List.filter_filter, List.map_map]
    rfl
  refine ⟨hmain, ?_⟩
  intro r hr
  rw [hmain] at hr
  obtain ⟨p, hp, rfl⟩ := List.mem_map.mp hr
  have hgs := (List.mem_filter.mp hp).2
  simp only [Bool.and_eq_true] at hgs
  have hgval : rowField (finalPolarRow cols (reindexRow cols (polarEntry cols
      ((dlookup p.1 a2c).getD none) (dictGetD p.2 "G" none)
      (dictGetD p.2 "H" none) date))) "g" =
      parseCellStr (cellOutStr (dictGetD p.2 "G" none)) := by
    rw [rowField_finalPolarRow cols _ "g" hg, rowField_reindex' cols _ "g" hg,
      rowField_polarEntry_g]
  rw [hgval]
  have := hgs.1
  unfold gSurvives at this
  cases hps : parseCellStr (cellOutStr (dictGetD p.2 "G" none)) with
  | none => rw [hps] at this; exact absurd this (by simp)
  | some s =>
    rw [hps] at this
    refine ⟨s, rfl, ?_⟩
    simpa using this

/-- C3 witness: the amended characterization applied to the concrete
counterexample run. -/
theorem polar_completeness_amended_witness :
    finalPolarRows exRecords3 exA2c3 (some "25/06/2025 00:00") exCols3 =
      (exRecords3.filter (fun p => gSurvives (dictGetD p.2 "G" none) &&
          polarQualifies exA2c3 p)).map
        (fun p => finalPolarRow exCols3 (reindexRow exCols3 (polarEntry exCols3
          ((dlookup p.1 exA2c3).getD none) (dictGetD p.2 "G" none)
          (dictGetD p.2 "H" none) (some "25/06/2025 00:00")))) ∧
    (∀ r ∈ finalPolarRows exRecords3 exA2c3 (some "25/06/2025 00:00") exCols3,
      ∃ s, rowField r "g" = some s ∧ pyStrip s ≠ "") :=
  polar_completeness_amended exRecords3 exA2c3 (some "25/06/2025 00:00") exCols3
    (by decide) (by decide)

/-! ## C7 — missing `Products` marker at assembly time -/

/-- C7 counterexample: a document that contains both section markers — so
the run passes the section guard, reaches assembly and opens the output
file — but has no `Products` line: the run aborts only after the preamble,
the merged channel section, the polarization section and the `Products`
marker line were already written, and the output file holds that non-empty
partial content, contradicting the claim that no partial output file is
produced. -/
theorem assembly_partial_cx :
    assembleStage exLines7 "id,_Minimum_channel_height_,_Maximum_channel_height_\n"
      ["r1,,\n"] "channel_id,g,h\n" [] = .error (some exPartial7) ∧
    exPartial7 ≠ [] :=
  ⟨by rfl, by decide⟩

/-- C7 (amended): when the existing document contains both section markers —
so the run passes the section guard of lines 93-100 and opens the output
file — but lacks a line exactly equal to `"Products\n"`, assembly raises the
uncaught `ValueError` and the run aborts with the output file holding the
non-empty partial assembly: preamble through the channel and polarization
sections up to and including the just-written `Products` marker line.  When
either section marker is missing the run instead aborts at the guard,
before any output file is created. -/
theorem assembly_missing_products_amended (lines : List String) (hoiStart : Nat)
    (hoiHeader : String) (hoiBody : List String) (polarHeader : String)
    (polarBody : List String)
    (hhoi : sectionIndex "HoiChannels" lines = some hoiStart)
    (hpolar : (sectionIndex "PolarizationCrosstalkParameter" lines).isSome = true)
    (h : "Products\n" ∉ lines) :
    assembleStage lines hoiHeader hoiBody polarHeader polarBody =
      .error (some (lines.take (hoiStart + 1) ++ [hoiHeader] ++ hoiBody ++ ["\n"] ++
        ["PolarizationCrosstalkParameter\n"] ++ [polarHeader] ++ polarBody ++
        ["\n"] ++ ["Products\n"])) ∧
    lines.take (hoiStart + 1) ++ [hoiHeader] ++ hoiBody ++ ["\n"] ++
        ["PolarizationCrosstalkParameter\n"] ++ [polarHeader] ++ polarBody ++
        ["\n"] ++ ["Products\n"] ≠ [] ∧
    (∀ other : List String,
      (sectionIndex "HoiChannels" other = none ∨
        sectionIndex "PolarizationCrosstalkParameter" other = none) →
      assembleStage other hoiHeader hoiBody polarHeader polarBody =
        .error none) := by
  obtain ⟨pidx, hpidx⟩ := Option.isSome_iff_exists.mp hpolar
  refine ⟨?_, by simp, ?_⟩
  · have hidx : lines.findIdx? (· == "Products\n") = none := by
      rw [List.findIdx?_eq_none_iff]
      intro x hx
      by_cases he : x = "Products\n"
      · exact absurd (he ▸ hx) h
      · simp [he]
    have hw : assembleWrites lines hoiStart hoiHeader hoiBody polarHeader polarBody =
        .error (lines.take (hoiStart + 1) ++ [hoiHeader] ++ hoiBody ++ ["\n"] ++
          ["PolarizationCrosstalkParameter\n"] ++ [polarHeader] ++ polarBody ++
          ["\n"] ++ ["Products\n"]) := by
      simp [assembleWrites, hidx]
    simp [assembleStage, hhoi, hpidx, hw]
  · intro other hother
    rcases hother with h1 | h1
    · cases h2 : sectionIndex "PolarizationCrosstalkParameter" other <;>
        simp [assembleStage, h1, h2]
    · cases h2 : sectionIndex "HoiChannels" other <;>
        simp [assembleStage, h1, h2]

/-- C7 witness: the amended theorem applied to the concrete document that
has both section markers but no `Products` line. -/
theorem assembly_missing_products_witness :
    assembleStage exLines7 "id,_Minimum_channel_height_,_Maximum_channel_height_\n"
        ["r1,,\n"] "channel_id,g,h\n" [] =
      .error (some (exLines7.take (0 + 1) ++
        ["id,_Minimum_channel_height_,_Maximum_channel_height_\n"] ++
        ["r1,,\n"] ++ ["\n"] ++ ["PolarizationCrosstalkParameter\n"] ++
        ["channel_id,g,h\n"] ++ [] ++ ["\n"] ++ ["Products\n"])) ∧
    exLines7.take (0 + 1) ++
        ["id,_Minimum_channel_height_,_Maximum_channel_height_\n"] ++
        ["r1,,\n"] ++ ["\n"] ++ ["PolarizationCrosstalkParameter\n"] ++
        ["channel_id,g,h\n"] ++ [] ++ ["\n"] ++ ["Products\n"] ≠ [] ∧
    (∀ other : List String,
      (sectionIndex "HoiChannels" other = none ∨
        sectionIndex "PolarizationCrosstalkParameter" other = none) →
      assembleStage other "id,_Minimum_channel_height_,_Maximum_channel_height_\n"
        ["r1,,\n"] "channel_id,g,h\n" [] = .error none) :=
  assembly_missing_products_amended exLines7 0
    "id,_Minimum_channel_height_,_Maximum_channel_height_\n" ["r1,,\n"]
    "channel_id,g,h\n" [] (by decide) (by decide) (by decide)

/-! ## C8 — cleanup-pass failure is caught and retains prior output -/

/-- C8: every failure of the cleanup pass's guarded body (missing marker,
header out of range, CSV parse failure, missing `g` column) is caught — the
pass is total and does not abort the run — and the output file keeps exactly
the content the assembly pass produced. -/
theorem cleanup_failure_retains (L : List Line) (h : cleanupCore L = none) :
    cleanupRun L = L := by
  simp [cleanupRun, h]

/-- C8 witness: the retention theorem applied to a file with no
polarization marker. -/
theorem cleanup_failure_retains_witness : cleanupRun exBad8 = exBad8 :=
  cleanup_failure_retains exBad8 (by decide)

/-! ## C6 toolkit: `listIndex` characterization -/

theorem listIndex_get? {α : Type} [DecidableEq α] {x : α} :
    ∀ {l : List α} {i : Nat}, listIndex x l = some i → l.get? i = some x := by
  intro l
  induction l with
  | nil => intro i h; simp [listIndex] at h
  | cons a t ih =>
    intro i h
    by_cases ha : a = x
    · simp only [listIndex, if_pos ha] at h
      obtain rfl := Option.some.inj h
      simp [ha]
    · simp only [listIndex, if_neg ha] at h
      cases hr : listIndex x t with
      | none => rw [hr] at h; simp at h
      | some j =>
        rw [hr] at h
        simp only [Option.map_some'] at h
        obtain rfl := Option.some.inj h
        simpa using ih hr

theorem listIndex_min {α : Type} [DecidableEq α] {x : α} :
    ∀ {l : List α} {i : Nat}, listIndex x l = some i →
      ∀ j, j < i → l.get? j ≠ some x := by
  intro l
  induction l with
  | nil => intro i h; simp [listIndex] at h
  | cons a t ih =>
    intro i h j hj
    by_cases ha : a = x
    · simp only [listIndex, if_pos ha] at h
      obtain rfl := Option.some.inj h
      exact absurd hj (Nat.not_lt_zero j)
    · simp only [listIndex, if_neg ha] at h
      cases hr : listIndex x t with
      | none => rw [hr] at h; simp at h
      | some k =>
        rw [hr] at h
        simp only [Option.map_some'] at h
        obtain rfl := Option.some.inj h
        cases j with
        | zero =>
          intro hc
          exact ha (Option.some.inj hc)
        | succ j' =>
          have := ih hr j' (Nat.lt_of_succ_lt_succ hj)
          simpa using this

theorem listIndex_of {α : Type} [DecidableEq α] {x : α} :
    ∀ {l : List α} {i : Nat}, l.get? i = some x →
      (∀ j, j < i → l.get? j ≠ some x) → listIndex x l = some i := by
  intro l
  induction l with
  | nil => intro i h; simp at h
  | cons a t ih =>
    intro i h hmin
    cases i with
    | zero =>
      have : a = x := Option.some.inj (by simpa using h)
      simp [listIndex, this]
    | succ j =>
      have ha : ¬ a = x := by
        intro he
        exact hmin 0 (Nat.succ_pos j) (by simp [he])
      have ht : listIndex x t = some j :=
        ih (by simpa using h) (fun j' hj' => by
          have := hmin (j' + 1) (Nat.succ_lt_succ hj')
          simpa using this)
      simp [listIndex, ha, ht]

theorem listIndex_none_iff {α : Type} [DecidableEq α] {x : α} {l : List α} :
    listIndex x l = none ↔ x ∉ l := by
  induction l with
  | nil => simp [listIndex]
  | cons a t ih =>
    by_cases ha : a = x
    · simp [listIndex, ha]
    · simp only [listIndex, if_neg ha, List.mem_cons]
      rw [Option.map_eq_none', ih]
      constructor
      · intro hn hc
        rcases hc with hc | hc
        · exact ha hc.symm
        · exact hn hc
      · intro hn
        exact fun hc => hn (Or.inr hc)

theorem listIndex_append_left {α : Type} [DecidableEq α] {x : α} {P : List α}
    {i : Nat} (h : listIndex x P = some i) (Q : List α) :
    listIndex x (P ++ Q) = some i := by
  apply listIndex_of
  · have hi : P.get? i = some x := listIndex_get? h
    have hlt : i < P.length := by
      by_contra hn
      push_neg at hn
      rw [List.get?_eq_none.mpr hn] at hi
      exact Option.noConfusion hi
    rw [List.get?_append hlt]
    exact hi
  · intro j hj
    have hlt : i < P.length := by
      have hi : P.get? i = some x := listIndex_get? h
      by_contra hn
      push_neg at hn
      rw [List.get?_eq_none.mpr hn] at hi
      exact Option.noConfusion hi
    rw [List.get?_append (Nat.lt_trans hj hlt)]
    exact listIndex_min h j hj

theorem listIndex_append_right {α : Type} [DecidableEq α] {x : α} {P : List α}
    (h : x ∉ P) (Q : List α) :
    listIndex x (P ++ Q) = (listIndex x Q).map (· + P.length) := by
  induction P with
  | nil => simp
  | cons a t ih =>
    have ha : ¬ a = x := fun he => h (by simp [he])
    have ht : x ∉ t := fun hm => h (List.mem_cons_of_mem a hm)
    simp only [List.cons_append, listIndex, if_neg ha, List.append_eq]
    rw [ih ht]
    cases listIndex x Q with
    | none => rfl
    | some j =>
      have hj : j + t.length + 1 = j + (t.length + 1) := by omega
      simp [hj]

theorem drop_eq_cons_of_get? {α : Type} {l : List α} {i : Nat} {a : α}
    (h : l.get? i = some a) : l.drop i = a :: l.drop (i + 1) := by
  have hi : i < l.length := by
    by_contra hn
    push_neg at hn
    rw [List.get?_eq_none.mpr hn] at h
    exact Option.noConfusion h
  rw [List.drop_eq_getElem_cons hi]
  rw [List.get?_eq_getElem?, List.getElem?_eq_getElem hi] at h
  obtain rfl := Option.some.inj h
  rfl

/-! ## C6 toolkit: splitting and joining CSV fields -/

theorem splitComma_ne_nil : ∀ (l : Line), splitComma l ≠ [] := by
  intro l
  induction l with
  | nil => simp [splitComma]
  | cons c rest ih =>
    simp only [splitComma]
    cases hr : splitComma rest with
    | nil => exact absurd hr ih
    | cons s ss => by_cases hc : c = ',' <;> simp [hc]

theorem splitComma_pieces_free : ∀ (l : Line), ∀ p ∈ splitComma l, ',' ∉ p := by
  intro l
  induction l with
  | nil => intro p hp; simp [splitComma] at hp; simp [hp]
  | cons c rest ih =>
    intro p hp
    cases hr : splitComma rest with
    | nil => exact absurd hr (splitComma_ne_nil rest)
    | cons s ss =>
      simp only [splitComma, hr] at hp
      by_cases hc : c = ','
      · rw [if_pos hc] at hp
        rcases List.mem_cons.mp hp with rfl | hp
        · simp
        · exact ih p (hr ▸ hp)
      · rw [if_neg hc] at hp
        rcases List.mem_cons.mp hp with rfl | hp
        · intro hm
          rcases List.mem_cons.mp hm with rfl | hm
          · exact hc rfl
          · exact ih s (hr ▸ List.mem_cons_self s ss) hm
        · exact ih p (hr ▸ List.mem_cons_of_mem s hp)

theorem joinComma_splitComma : ∀ (l : Line), joinComma (splitComma l) = l := by
  intro l
  induction l with
  | nil => simp [splitComma, joinComma]
  | cons c rest ih =>
    simp only [splitComma]
    cases hr : splitComma rest with
    | nil => exact absurd hr (splitComma_ne_nil rest)
    | cons s ss =>
      rw [hr] at ih
      by_cases hc : c = ','
      · subst hc
        simp [joinComma, ih]
      · simp only [if_neg hc]
        cases ss with
        | nil => simp only [joinComma] at ih ⊢; rw [ih]
        | cons s2 ss2 =>
          simp only [joinComma] at ih ⊢
          rw [List.cons_append, ih]

theorem splitComma_of_free {l : Line} (h : ',' ∉ l) : splitComma l = [l] := by
  induction l with
  | nil => simp [splitComma]
  | cons c rest ih =>
    have hc : ¬ c = ',' := fun he => h (by simp [he])
    have hr : ',' ∉ rest := fun hm => h (List.mem_cons_of_mem c hm)
    simp [splitComma, ih hr, hc]

theorem splitComma_append_free {x : Line} (h : ',' ∉ x) (rest : Line) :
    splitComma (x ++ ',' :: rest) = x :: splitComma rest := by
  induction x with
  | nil =>
    simp only [List.nil_append, splitComma]
    cases hr : splitComma rest with
    | nil => exact absurd hr (splitComma_ne_nil rest)
    | cons s ss => simp
  | cons c t ih =>
    have hc : ¬ c = ',' := fun he => h (by simp [he])
    have ht : ',' ∉ t := fun hm => h (List.mem_cons_of_mem c hm)
    simp only [List.cons_append, splitComma, if_neg hc, List.append_eq]
    rw [ih ht]

theorem splitComma_joinComma : ∀ (pieces : List Line), pieces ≠ [] →
    (∀ p ∈ pieces, ',' ∉ p) → splitComma (joinComma pieces) = pieces := by
  intro pieces
  induction pieces with
  | nil => intro h; exact absurd rfl h
  | cons x rest ih =>
    intro _ hfree
    cases rest with
    | nil =>
      simp only [joinComma]
      exact splitComma_of_free (hfree x (List.mem_cons_self x []))
    | cons y ys =>
      simp only [joinComma]
      rw [splitComma_append_free (hfree x (List.mem_cons_self x _))]
      congr 1
      exact ih (by simp) (fun p hp => hfree p (List.mem_cons_of_mem x hp))

/-! ## C6 toolkit: `mapM` over `Option` -/

theorem mapM_some_forall {α β : Type} {f : α → Option β} :
    ∀ {l : List α} {r : List β}, l.mapM f = some r →
      ∀ b ∈ r, ∃ a ∈ l, f a = some b := by
  intro l
  induction l with
  | nil =>
    intro r h b hb
    simp only [List.mapM_nil, pure, Option.some.injEq] at h
    rw [← h] at hb
    exact absurd hb (List.not_mem_nil b)
  | cons a t ih =>
    intro r h b hb
    rw [List.mapM_cons] at h
    cases hfa : f a with
    | none => rw [hfa] at h; simp at h
    | some b0 =>
      rw [hfa] at h
      cases hft : t.mapM f with
      | none => rw [hft] at h; simp at h
      | some r0 =>
        rw [hft] at h
        simp only [Option.bind_eq_bind, Option.some_bind, pure,
          Option.some.injEq] at h
        rw [← h] at hb
        rcases List.mem_cons.mp hb with rfl | hb
        · exact ⟨a, List.mem_cons_self a t, hfa⟩
        · obtain ⟨a', ha', hfa'⟩ := ih hft b hb
          exact ⟨a', List.mem_cons_of_mem a ha', hfa'⟩

theorem mapM_map_some {α β : Type} {f : β → Option α} {g : α → β} :
    ∀ {l : List α}, (∀ a ∈ l, f (g a) = some a) → (l.map g).mapM f = some l := by
  intro l
  induction l with
  | nil => intro _; rfl
  | cons a t ih =>
    intro h
    rw [List.map_cons, List.mapM_cons, h a (List.mem_cons_self a t),
      ih (fun a' ha' => h a' (List.mem_cons_of_mem a ha'))]
    rfl

/-! ## C6 toolkit: cell and row round trips -/

theorem nil_mem_pdNaTokensL : ([] : Line) ∈ pdNaTokensL := by decide

theorem parseCellL_cellOutL {c : Option Line}
    (h : ∀ s, c = some s → s ∉ pdNaTokensL) : parseCellL (cellOutL c) = c := by
  cases c with
  | none => simp [cellOutL, parseCellL, nil_mem_pdNaTokensL]
  | some s => simp [cellOutL, parseCellL, h s rfl]

theorem contentOf_serializeRowL (cells : List (Option Line)) :
    contentOf (serializeRowL cells) = joinComma (cells.map cellOutL) := by
  unfold serializeRowL contentOf
  rw [if_pos (List.getLast?_concat _), List.dropLast_concat]

theorem parseDataLine_facts {n : Nat} {l : Line} {cells : List (Option Line)}
    (h : parseDataLine n l = some cells) :
    cells.length = n ∧
      (∀ c ∈ cells, ∀ s, c = some s → (',' ∉ s ∧ s ∉ pdNaTokensL)) := by
  unfold parseDataLine at h
  by_cases hlt : n < ((splitComma (contentOf l)).map parseCellL).length
  · rw [if_pos hlt] at h; exact absurd h (by simp)
  · rw [if_neg hlt] at h
    obtain rfl := Option.some.inj h
    push_neg at hlt
    constructor
    · simp only [List.length_append, List.length_replicate, List.length_map] at hlt ⊢
      omega
    · intro c hc s hs
      rcases List.mem_append.mp hc with hc | hc
      · obtain ⟨p, hp, hpc⟩ := List.mem_map.mp hc
        subst hs
        unfold parseCellL at hpc
        by_cases hna : p ∈ pdNaTokensL
        · rw [if_pos hna] at hpc; exact absurd hpc (by simp)
        · rw [if_neg hna] at hpc
          obtain rfl := Option.some.inj hpc
          exact ⟨splitComma_pieces_free (contentOf l) p hp, hna⟩
      · have := List.eq_of_mem_replicate hc
        rw [this] at hs
        exact absurd hs (by simp)

theorem parse_serialize_roundtrip {n : Nat} {cells : List (Option Line)}
    (hne : cells ≠ []) (hlen : cells.length = n)
    (hcells : ∀ c ∈ cells, ∀ s, c = some s → (',' ∉ s ∧ s ∉ pdNaTokensL)) :
    parseDataLine n (serializeRowL cells) = some cells := by
  have hfree : ∀ p ∈ cells.map cellOutL, ',' ∉ p := by
    intro p hp
    obtain ⟨c, hc, rfl⟩ := List.mem_map.mp hp
    cases c with
    | none => simp [cellOutL]
    | some s => exact (hcells (some s) hc s rfl).1
  have hsplit : splitComma (contentOf (serializeRowL cells)) = cells.map cellOutL := by
    rw [contentOf_serializeRowL]
    exact splitComma_joinComma _ (by simpa using hne) hfree
  unfold parseDataLine
  rw [hsplit, List.map_map]
  have hback : cells.map (parseCellL ∘ cellOutL) = cells := by
    have h1 : ∀ c ∈ cells, (parseCellL ∘ cellOutL) c = id c := fun c hc =>
      parseCellL_cellOutL (fun s hs => (hcells c hc s hs).2)
    rw [List.map_congr_left h1, List.map_id]
  rw [hback, hlen]
  simp

theorem joinComma_two_ne_nil (x y : Line) (l : List Line) :
    joinComma (x :: y :: l) ≠ [] := by
  cases x <;> simp [joinComma]

theorem comma_mem_joinComma_two (x y : Line) (l : List Line) :
    ',' ∈ joinComma (x :: y :: l) := by
  simp [joinComma]

theorem keepRowL_cell {gi : Nat} {cells : List (Option Line)}
    (hk : keepRowL gi cells = true) :
    ∃ s, cells.getD gi none = some s ∧ s ≠ [] := by
  unfold keepRowL at hk
  cases hgd : cells.getD gi none with
  | none => rw [hgd] at hk; simp at hk
  | some s =>
    rw [hgd] at hk
    refine ⟨s, rfl, ?_⟩
    intro he
    subst he
    simp [pyStripL] at hk

theorem serialize_nonblank {gi : Nat} {cells : List (Option Line)}
    (hk : keepRowL gi cells = true) :
    (contentOf (serializeRowL cells)).isEmpty = false := by
  rw [contentOf_serializeRowL]
  obtain ⟨s, hgd, hs⟩ := keepRowL_cell hk
  cases cells with
  | nil => simp [List.getD] at hgd
  | cons c cs =>
    cases cs with
    | nil =>
      cases gi with
      | zero =>
        simp only [List.getD, List.get?, Option.getD_some] at hgd
        rw [hgd]
        simp only [List.map_cons, List.map_nil, joinComma, cellOutL, Option.getD_some]
        cases s with
        | nil => exact absurd rfl hs
        | cons a t => simp
      | succ n => simp [List.getD] at hgd
    | cons c2 cs2 =>
      simp only [List.map_cons]
      have := joinComma_two_ne_nil (cellOutL c) (cellOutL c2) (cs2.map cellOutL)
      simpa [List.isEmpty_iff] using this

theorem parse_singleton_content {n : Nat} {l : Line} {s : Line}
    (h : parseDataLine n l = some [some s]) : contentOf l = s := by
  unfold parseDataLine at h
  by_cases hlt : n < ((splitComma (contentOf l)).map parseCellL).length
  · rw [if_pos hlt] at h; exact absurd h (by simp)
  · rw [if_neg hlt] at h
    have heq := Option.some.inj h
    have hplen : ((splitComma (contentOf l)).map parseCellL).length ≤ 1 := by
      have := congrArg List.length heq
      simp only [List.length_append, List.length_replicate, List.length_cons,
        List.length_nil] at this
      omega
    obtain ⟨p, hp⟩ : ∃ p, splitComma (contentOf l) = [p] := by
      cases hsp : splitComma (contentOf l) with
      | nil => exact absurd hsp (splitComma_ne_nil _)
      | cons p ps =>
        cases ps with
        | nil => exact ⟨p, rfl⟩
        | cons q qs =>
          rw [hsp] at hplen
          simp at hplen
    rw [hp] at heq
    simp only [List.map_cons, List.map_nil, List.length_cons, List.length_nil] at heq
    have hpad : n - 1 = 0 := by
      have := congrArg List.length heq
      simp only [List.length_append, List.length_replicate, List.length_cons,
        List.length_nil] at this
      omega
    rw [hpad] at heq
    simp only [List.replicate, List.append_nil, List.cons.injEq, and_true] at heq
    unfold parseCellL at heq
    by_cases hna : p ∈ pdNaTokensL
    · rw [if_pos hna] at heq; exact absurd heq (by simp)
    · rw [if_neg hna] at heq
      obtain rfl := Option.some.inj heq
      conv_lhs => rw [← joinComma_splitComma (contentOf l), hp]
      rfl

theorem nl_blank : (contentOf ['\n']).isEmpty = true := by decide

theorem readCsvL_roundtrip {header : Line} {K : List (List (Option Line))}
    {cols : List Line} {gi : Nat}
    (hhnb : (contentOf header).isEmpty = false)
    (hcols : cols = splitComma (contentOf header))
    (hK : ∀ cells ∈ K, cells.length = cols.length ∧
      (∀ c ∈ cells, ∀ s, c = some s → (',' ∉ s ∧ s ∉ pdNaTokensL)) ∧
      keepRowL gi cells = true) :
    readCsvL (header :: (K.map serializeRowL ++ [['\n']])) = some ⟨cols, K⟩ := by
  have hfil : (header :: (K.map serializeRowL ++ [['\n']])).filter
      (fun l => !(contentOf l).isEmpty) = header :: K.map serializeRowL := by
    rw [List.filter_cons_of_pos (by simp [hhnb]), List.filter_append]
    rw [List.filter_eq_self.mpr (by
      intro l hl
      obtain ⟨cells, hc, rfl⟩ := List.mem_map.mp hl
      simp [serialize_nonblank (hK cells hc).2.2])]
    have : ([['\n']] : List Line).filter (fun l => !(contentOf l).isEmpty) = [] := by
      decide
    rw [this, List.append_nil]
  have hmapM : (K.map serializeRowL).mapM
      (parseDataLine (splitComma (contentOf header)).length) = some K := by
    apply mapM_map_some
    intro cells hc
    obtain ⟨hlen, hfacts, hkeep⟩ := hK cells hc
    apply parse_serialize_roundtrip
    · intro he
      subst he
      obtain ⟨s, hgd, _⟩ := keepRowL_cell hkeep
      simp [List.getD] at hgd
    · rw [hlen, hcols]
    · exact hfacts
  subst hcols
  unfold readCsvL
  rw [hfil]
  show Option.map (fun rows => CsvTable.mk (splitComma (contentOf header)) rows)
      ((K.map serializeRowL).mapM (parseDataLine (splitComma (contentOf header)).length)) =
    some ⟨splitComma (contentOf header), K⟩
  rw [hmapM]
  rfl

theorem readCsvL_cons_eq {ls : List Line} {h0 : Line} {rest : List Line}
    (hfil : ls.filter (fun l => !(contentOf l).isEmpty) = h0 :: rest) :
    readCsvL ls = (rest.mapM (parseDataLine (splitComma (contentOf h0)).length)).map
      (fun rows => CsvTable.mk (splitComma (contentOf h0)) rows) := by
  unfold readCsvL
  rw [hfil]

/-- C6 counterexample: on a file whose first `Products` line precedes the
polarization marker, a second cleanup pass produces different bytes than the
first (the region between the markers is empty while the rewrite re-appends
the whole suffix, so the file grows on every pass). -/
theorem cleanup_idempotent_cx :
    cleanupRun (cleanupRun exC6) ≠ cleanupRun exC6 := by decide

/-- C6 (amended): the cleanup pass is idempotent — a second application
yields byte-identical output — provided that, whenever both markers are
found, the first `Products` line lies after the polarization marker line,
the line following the marker (the header `read_csv` will use) is not
blank, and the data lines of the region end with a newline (as `readlines`
guarantees for non-final lines); the counterexample shows the claim fails
without the marker-order proviso. -/
theorem cleanup_idempotent_amended (L : List Line)
    (h : ∀ ps pj, listIndex polarMarkerL L = some ps →
      listIndex productsL L = some pj →
      ps < pj ∧
      (∀ hd, L.get? (ps + 1) = some hd → (contentOf hd).isEmpty = false) ∧
      (∀ l ∈ (L.drop (ps + 2)).take (pj - (ps + 2)), l.getLast? = some '\n')) :
    cleanupRun (cleanupRun L) = cleanupRun L := by
  cases hc : cleanupCore L with
  | none =>
    have h1 : cleanupRun L = L := by simp [cleanupRun, hc]
    rw [h1, h1]
  | some out =>
    have h1 : cleanupRun L = out := by simp [cleanupRun, hc]
    rw [h1]
    suffices hco : cleanupCore out = some out by simp [cleanupRun, hco]
    simp only [cleanupCore, Option.bind_eq_bind, Option.bind_eq_some,
      Option.some.injEq] at hc
    obtain ⟨ps, hps, pj, hpj, header, hheader, t, ht, gi, hgi, hout⟩ := hc
    obtain ⟨hlt, hhnbI, hnl⟩ := h ps pj hps hpj
    have hhnb : (contentOf header).isEmpty = false := hhnbI header hheader
    have hpsx : L.get? ps = some polarMarkerL := listIndex_get? hps
    have hpjx : L.get? pj = some productsL := listIndex_get? hpj
    have hpjlen : pj < L.length := by
      by_contra hn; push_neg at hn
      rw [List.get?_eq_none.mpr hn] at hpjx; exact Option.noConfusion hpjx
    have hpslen1 : ps + 1 < L.length := by
      by_contra hn; push_neg at hn
      rw [List.get?_eq_none.mpr hn] at hheader; exact Option.noConfusion hheader
    -- unfold the pass-1 CSV parse
    have hfil : (header :: (L.drop (ps + 2)).take (pj - (ps + 2))).filter
        (fun l => !(contentOf l).isEmpty) =
        header :: ((L.drop (ps + 2)).take (pj - (ps + 2))).filter
          (fun l => !(contentOf l).isEmpty) :=
      List.filter_cons_of_pos (by simp [hhnb])
    rw [readCsvL_cons_eq hfil] at ht
    cases hmm : (((L.drop (ps + 2)).take (pj - (ps + 2))).filter
        (fun l => !(contentOf l).isEmpty)).mapM
        (parseDataLine (splitComma (contentOf header)).length) with
    | none => rw [hmm] at ht; exact absurd ht (by simp)
    | some rows =>
    rw [hmm] at ht
    simp only [Option.map_some'] at ht
    obtain ht := Option.some.inj ht
    subst ht
    dsimp only at hgi hout
    -- facts about the parsed rows
    have hrowfacts : ∀ cells ∈ rows,
        cells.length = (splitComma (contentOf header)).length ∧
        ∀ c ∈ cells, ∀ s, c = some s → (',' ∉ s ∧ s ∉ pdNaTokensL) := by
      intro cells hcmem
      obtain ⟨l, _, hparse⟩ := mapM_some_forall hmm cells hcmem
      exact parseDataLine_facts hparse
    -- no data line is the Products line
    have hdata_ne : ∀ l ∈ (L.drop (ps + 2)).take (pj - (ps + 2)),
        l ≠ productsL := by
      intro l hl he
      obtain ⟨n, hn⟩ := List.mem_iff_get?.mp hl
      have hnlt : n < ((L.drop (ps + 2)).take (pj - (ps + 2))).length := by
        by_contra hx; push_neg at hx
        rw [List.get?_eq_none.mpr hx] at hn; exact Option.noConfusion hn
      have hdlen : n < pj - (ps + 2) :=
        lt_of_lt_of_le hnlt (List.length_take_le _ _)
      rw [List.get?_take hdlen, List.get?_drop] at hn
      have hne := listIndex_min hpj (ps + 2 + n) (by omega)
      rw [he] at hn
      exact hne hn
    -- the header is not the Products line
    have hhne : header ≠ productsL := by
      intro he
      rw [he] at hgi
      have : listIndex gColL (splitComma (contentOf productsL)) = none := by decide
      rw [this] at hgi
      exact Option.noConfusion hgi
    -- serialized kept lines are never the Products line
    have hKne : ∀ cells ∈ rows.filter (keepRowL gi),
        serializeRowL cells ≠ productsL := by
      intro cells hcm he
      obtain ⟨hcrows, hkeep⟩ := List.mem_filter.mp hcm
      have hcontent : joinComma (cells.map cellOutL) = contentOf productsL := by
        rw [← contentOf_serializeRowL, he]
      have hcp : contentOf productsL = "Products".toList := by decide
      have hnc : ',' ∉ joinComma (cells.map cellOutL) := by
        rw [hcontent, hcp]; decide
      obtain ⟨s0, hgd, hs0⟩ := keepRowL_cell hkeep
      cases cells with
      | nil => simp [List.getD] at hgd
      | cons c cs =>
        cases cs with
        | cons c2 cs2 =>
          apply hnc
          simp only [List.map_cons]
          exact comma_mem_joinComma_two (cellOutL c) (cellOutL c2)
            (cs2.map cellOutL)
        | nil =>
          have hcsome : c = some s0 := by
            cases gi with
            | zero => simpa [List.getD] using hgd
            | succ n => simp [List.getD] at hgd
          subst hcsome
          simp only [List.map_cons, List.map_nil, joinComma, cellOutL,
            Option.getD_some] at hcontent
          -- hcontent : s0 = contentOf productsL
          obtain ⟨l, hlmem, hparse⟩ := mapM_some_forall hmm _ hcrows
          have hcl : contentOf l = s0 := parse_singleton_content hparse
          have hldata : l ∈ (L.drop (ps + 2)).take (pj - (ps + 2)) :=
            List.mem_of_mem_filter hlmem
          have hlast := hnl l hldata
          have hlp : l = productsL := by
            have hdl : l.dropLast ++ ['\n'] = l :=
              List.dropLast_append_getLast? '\n' hlast
            have hcl2 : contentOf l = l.dropLast := by
              unfold contentOf; rw [if_pos hlast]
            rw [hcl2] at hcl
            rw [← hdl, hcl, hcontent, hcp]
            decide
          exact hdata_ne l hldata hlp
    -- abbreviations for the rewritten document
    set A := L.take (ps + 1) with hA
    set B := L.drop pj with hB
    set kept := rows.filter (keepRowL gi) with hkept
    set K := kept.map serializeRowL with hKdef
    have hAlen : A.length = ps + 1 := by
      rw [hA, List.length_take]
      omega
    have hBcons : B = productsL :: L.drop (pj + 1) := drop_eq_cons_of_get? hpjx
    -- positional facts about `out`
    have htake : out.take (ps + 1) = A := by
      rw [← hout]
      rw [show ps + 1 = A.length from hAlen.symm]
      simp only [List.append_assoc]
      exact List.take_left A _
    have hget2 : out.get? (ps + 1) = some header := by
      rw [← hout]
      simp only [List.append_assoc]
      rw [List.get?_append_right (by omega : A.length ≤ ps + 1)]
      rw [hAlen]
      simp
    have hdrop2 : out.drop (ps + 2) = K ++ ([['\n']] ++ B) := by
      rw [← hout]
      simp only [List.append_assoc]
      rw [show ps + 2 = A.length + 1 from by omega]
      rw [List.drop_append]
      rfl
    have hdata2 : (out.drop (ps + 2)).take (ps + K.length + 3 - (ps + 2)) =
        K ++ [['\n']] := by
      rw [hdrop2]
      rw [show ps + K.length + 3 - (ps + 2) = K.length + 1 from by omega]
      rw [List.take_append 1]
      rfl
    have hdroppj : out.drop (ps + K.length + 3) = B := by
      rw [← hout]
      simp only [List.append_assoc]
      rw [show ps + K.length + 3 = A.length + (1 + (K.length + 1)) from by omega]
      rw [List.drop_append]
      rw [show (1 : Nat) + (K.length + 1) =
        ([header] : List Line).length + (K.length + 1) from by simp]
      rw [List.drop_append]
      rw [show K.length + 1 = K.length + 1 from rfl, List.drop_append 1]
      rfl
    have hps2 : listIndex polarMarkerL out = some ps := by
      rw [← hout]
      simp only [List.append_assoc]
      apply listIndex_append_left
      apply listIndex_of
      · rw [hA, List.get?_take (by omega : ps < ps + 1)]
        exact hpsx
      · intro j hj
        rw [hA, List.get?_take (by omega : j < ps + 1)]
        exact listIndex_min hps j hj
    have hnpA : productsL ∉ A := by
      intro hm
      obtain ⟨n, hn⟩ := List.mem_iff_get?.mp hm
      have hnlt : n < A.length := by
        by_contra hx; push_neg at hx
        rw [List.get?_eq_none.mpr hx] at hn; exact Option.noConfusion hn
      rw [hA, List.get?_take (by omega : n < ps + 1)] at hn
      exact listIndex_min hpj n (by omega) hn
    have hpj2 : listIndex productsL out = some (ps + K.length + 3) := by
      rw [← hout]
      simp only [List.append_assoc]
      rw [listIndex_append_right hnpA]
      rw [listIndex_append_right (by
        intro hm
        exact hhne (List.mem_singleton.mp hm).symm)]
      rw [listIndex_append_right (by
        intro hm
        obtain ⟨cells, hcm, hser⟩ := List.mem_map.mp hm
        exact hKne cells hcm hser)]
      rw [listIndex_append_right (by decide : productsL ∉ ([['\n']] : List Line))]
      rw [hBcons]
      rw [show listIndex productsL (productsL :: L.drop (pj + 1)) = some 0 from by
        simp [listIndex]]
      simp only [Option.map_some', List.length_singleton, hAlen]
      congr 1
      omega
    have hkeptfil : kept.filter (keepRowL gi) = kept :=
      List.filter_eq_self.mpr (fun r hr => (List.mem_filter.mp (hkept ▸ hr)).2)
    have hread2 : readCsvL (header :: (K ++ [['\n']])) =
        some ⟨splitComma (contentOf header), kept⟩ := by
      rw [hKdef]
      apply readCsvL_roundtrip hhnb rfl
      intro cells hcm
      obtain ⟨hcrows, hkeep⟩ := List.mem_filter.mp (hkept ▸ hcm)
      obtain ⟨hlen, hfacts⟩ := hrowfacts cells hcrows
      exact ⟨hlen, hfacts, hkeep⟩
    -- assemble the second pass
    show cleanupCore out = some out
    simp only [cleanupCore, hps2, hpj2, hget2, Option.bind_eq_bind,
      Option.some_bind]
    rw [hdata2, hread2]
    simp only [Option.some_bind]
    rw [hgi]
    simp only [Option.some_bind]
    rw [hkeptfil, htake, hdroppj, ← hKdef, hout]

/-- C6 witness: the amended idempotence theorem applied to the concrete
well-formed document `exW6`. -/
theorem cleanup_idempotent_witness :
    cleanupRun (cleanupRun exW6) = cleanupRun exW6 :=
  cleanup_idempotent_amended exW6 (by
    intro ps pj hps hpj
    have hps1 : listIndex polarMarkerL exW6 = some 1 := by decide
    rw [hps1] at hps
    obtain rfl := Option.some.inj hps
    have hpj6 : listIndex productsL exW6 = some 6 := by decide
    rw [hpj6] at hpj
    obtain rfl := Option.some.inj hpj
    refine ⟨by omega, ?_, ?_⟩
    · intro hd hh
      have h2 : exW6.get? 2 = some "channel_id,g,h\n".toList := by decide
      rw [h2] at hh
      obtain rfl := Option.some.inj hh
      decide
    · intro l hl
      have hdata : (exW6.drop 3).take 3 =
          lns ["c1,1.23,\n", "c2,,0.9\n", "\n"] := by decide
      rw [show (6 : Nat) - (1 + 2) = 3 from rfl] at hl
      rw [hdata] at hl
      simp only [lns, List.map_cons, List.map_nil, List.mem_cons,
        List.not_mem_nil, or_false] at hl
      rcases hl with rfl | rfl | rfl <;> decide)

end SCC
